import Mathlib

/-!
Verification of the LUDO board-game core (`main.py`) against its design
specification.  The Python classes `Figure`, `Player` and `Board` are
shallowly embedded: coordinates and the board size are `Int`
(Python integers), `Optional[...]` is `Option ...`, Python lists are
`List`, and mutation is modelled by explicit state passing.  Python
object identity of `Figure` objects (used by `list.remove`) is modelled
by a numeric `fid` field.
-/

/-- Embedding of the Python enum `BoardBox`. -/
inductive BoardBox where
  | EMPTY
  | WALL
  | PATH
  | HOME
  deriving DecidableEq, Repr

/-- Embedding of the Python class `Figure`.  The extra field `fid`
models Python object identity. -/
structure Figure where
  fid : Nat
  start_position : Int × Int
  position : Int × Int
  representation : String
  deriving DecidableEq, Repr

/-- Embedding of the Python class `Player`. -/
structure Player where
  representation : String
  home_position : Int × Int
  figures : List Figure
  deriving DecidableEq, Repr

/-- Embedding of the mutable state of the Python class `Board`: its size
`n` and the players (each holding its figures).  The cell grid
`self.board` and the list `self.starts` are pure functions of `n` and
are embedded as `boardGrid` and `starts` below. -/
structure Board where
  n : Int
  players : List Player
  deriving DecidableEq, Repr

/-- `Board.box_at` (src/main.py:166-176); the local `m = self.n // 2` is
inlined as `n / 2` (Python `//` on a positive divisor is `Int./`). -/
def box_at (n x y : Int) : BoardBox :=
  if x = n / 2 ∨ y = n / 2 then
    if x = y then BoardBox.WALL
    else if x = 0 ∨ x = n - 1 ∨ y = 0 ∨ y = n - 1 then BoardBox.PATH
    else BoardBox.HOME
  else if (x < n / 2 - 1 ∨ x > n / 2 + 1) ∧ (y < n / 2 - 1 ∨ y > n / 2 + 1) then BoardBox.EMPTY
  else BoardBox.PATH

/-- The grid `self.board` built by `Board._build_board`
(src/main.py:178-184): row `i`, column `j` holds `box_at(j, i)`, so
`self.board[i][j] = box_at(j, i)`. -/
def boardGrid (n i j : Int) : BoardBox :=
  box_at n j i

/-- `self.starts` as set in `Board.__init__` (src/main.py:88-91). -/
def starts (n : Int) : List (Int × Int) :=
  [(n / 2 + 1, 0), (n / 2 - 1, n - 1)]

/-- `Board.__init__` (src/main.py:83-91): `assert n % 2` succeeds iff
`n` is odd; a failed assertion is modelled as `none`. -/
def Board.init (n : Int) : Option Board :=
  if n % 2 = 0 then none else some { n := n, players := [] }

/-- `Board.max_figures` (src/main.py:93-95). -/
def Board.max_figures (b : Board) : Int :=
  (b.n - 3) / 2

/-- `Board.next_position` (src/main.py:120-152).  The grid lookups
`self.board[x][y]` and `self.board[py][px]` are `boardGrid n x y` and
`boardGrid n py px`.  Note the fourth branch keeps the source's
condition `y > m + 1` (src/main.py:131) verbatim. -/
def next_position (n x y : Int) : Option (Int × Int) :=
  if x = n / 2 ∧ y < n / 2 - 1 ∧ y ≠ 0 then some (x, y + 1)
  else if x = n / 2 ∧ y > n / 2 + 1 ∧ y ≠ n - 1 then some (x, y - 1)
  else if y = n / 2 ∧ x < n / 2 - 1 ∧ x ≠ 0 then some (x + 1, y)
  else if y = n / 2 ∧ y > n / 2 + 1 ∧ y ≠ n - 1 then some (x - 1, y)
  else if boardGrid n x y = BoardBox.HOME then none
  else
    ((if x < n / 2 then (if y > 0 then [(x, y - 1)] else []) else if y < n - 1 then [(x, y + 1)] else []) ++
      (if y < n / 2 then (if x < n - 1 then [(x + 1, y)] else []) else if x > 0 then [(x - 1, y)] else [])).find?
      (fun p => decide (boardGrid n p.2 p.1 = BoardBox.PATH))

/-- `Board.home_position` (src/main.py:154-164). -/
def home_position (n x y : Int) : Option (Int × Int) :=
  if x = 0 then some (1, n / 2)
  else if x = n - 1 then some (n - 2, n / 2)
  else if y = 0 then some (n / 2, 1)
  else if y = n - 1 then some (n / 2, n - 2)
  else none

/-- `Player.figure_at` (src/main.py:56-60). -/
def Player.figure_at (p : Player) (x y : Int) : Option Figure :=
  p.figures.find? (fun f => decide (f.position = (x, y)))

/-- `Board.figure_at` (src/main.py:97-102): scan the players in order,
first player owning a figure at `(x, y)` wins; `(None, None)` is
`none`. -/
def findFig : List Player → Int → Int → Option (Figure × Player)
  | [], _, _ => none
  | pl :: rest, x, y =>
    match pl.figure_at x y with
    | some f => some (f, pl)
    | none => findFig rest x y

/-- `Board.figure_at` (src/main.py:97-102). -/
def Board.figure_at (b : Board) (x y : Int) : Option (Figure × Player) :=
  findFig b.players x y

/-- `Figure.is_home` (src/main.py:41-43). -/
def Figure.is_home (f : Figure) (b : Board) : Bool :=
  decide (box_at b.n f.position.1 f.position.2 = BoardBox.HOME)

/-- `Player.figures_finished` (src/main.py:62-66): the early-exit loop
is `List.all`. -/
def Player.figures_finished (p : Player) (b : Board) : Bool :=
  p.figures.all (fun f => f.is_home b)

/-- `Player.has_finished` (src/main.py:71-72). -/
def Player.has_finished (p : Player) (b : Board) : Bool :=
  decide ((p.figures.length : Int) = b.max_figures) && p.figures_finished b

/-- `Player.delete_figure` (src/main.py:74-75): Python `list.remove`
deletes the first element identical to the argument; identity is the
`fid`. -/
def Player.delete_figure (p : Player) (f : Figure) : Player :=
  { p with figures := p.figures.eraseP (fun g => decide (g.fid = f.fid)) }

/-- The effect of `del_player.delete_figure(del_figure)` inside
`Board.move_figure` (src/main.py:105-107): the first player holding a
figure at `(x, y)` loses that figure. -/
def delPlayers : List Player → Int → Int → List Player
  | [], _, _ => []
  | pl :: rest, x, y =>
    match pl.figure_at x y with
    | some f => pl.delete_figure f :: rest
    | none => pl :: delPlayers rest x y

/-- The effect of `figure.move_to((x, y))` (src/main.py:38-39): the
figure object is aliased inside its owner's list, so every list entry
with the same identity sees the new position. -/
def setPos (b : Board) (fid : Nat) (xy : Int × Int) : Board :=
  { b with
    players := b.players.map fun pl =>
      { pl with
        figures := pl.figures.map fun g =>
          if g.fid = fid then { g with position := xy } else g } }

/-- `Board.move_figure` (src/main.py:104-109), returning the new board
state, the updated moving figure, and the captured figure (if any):
look up the occupant of `(x, y)`, delete it from its owner if present,
then move the figure there unconditionally. -/
def Board.move_figure (b : Board) (f : Figure) (x y : Int) : Board × Figure × Option Figure :=
  match b.figure_at x y with
  | some pr =>
    (setPos { b with players := delPlayers b.players x y } f.fid (x, y),
      { f with position := (x, y) }, some pr.1)
  | none => (setPos b f.fid (x, y), { f with position := (x, y) }, none)

/-- The body of the `for` loop of `Figure.next_position`
(src/main.py:27-32), iterated `moves` times: one advance, the redirect
to the home lane on hitting `start`, and the early `None` return. -/
def figWalk (n : Int) (start : Int × Int) : Nat → Int × Int → Option (Int × Int)
  | 0, p => some p
  | k + 1, p =>
    match next_position n p.1 p.2 with
    | none => none
    | some q =>
      if q = start then
        match home_position n q.1 q.2 with
        | none => none
        | some r => figWalk n start k r
      else figWalk n start k q

/-- `Figure.next_position` (src/main.py:24-36): run the loop, then
reject a destination that is a HOME cell occupied by a figure. -/
def Figure.next_position (f : Figure) (b : Board) (moves : Nat) : Option (Int × Int) :=
  match figWalk b.n f.start_position moves f.position with
  | none => none
  | some d =>
    match b.figure_at d.1 d.2 with
    | some _ => if box_at b.n d.1 d.2 = BoardBox.HOME then none else some d
    | none => some d

/-- Repeated application of `Board.next_position` alone (no home-lane
redirect), used to state the closed-loop property of the track. -/
def trackIter (n : Int) : Nat → Int × Int → Option (Int × Int)
  | 0, p => some p
  | k + 1, p =>
    match next_position n p.1 p.2 with
    | none => none
    | some q => trackIter n k q

/-- Modelled from the spec: the classification rule of §4.1
(`classify`), written with the spec's wording (`m = N div 2`, the band
`[m-1, m+1]`), to be compared with the source's `box_at`. -/
def specClassify (n x y : Int) : BoardBox :=
  if x = n / 2 ∨ y = n / 2 then
    if x = y then BoardBox.WALL
    else if x = 0 ∨ x = n - 1 ∨ y = 0 ∨ y = n - 1 then BoardBox.PATH
    else BoardBox.HOME
  else if ¬(n / 2 - 1 ≤ x ∧ x ≤ n / 2 + 1) ∧ ¬(n / 2 - 1 ≤ y ∧ y ≤ n / 2 + 1) then BoardBox.EMPTY
  else BoardBox.PATH

/-- The spec's "occupied by another figure": some figure other than `f`
(by identity) sits at `(x, y)`. -/
def occupiedByOther (b : Board) (f : Figure) (x y : Int) : Bool :=
  b.players.any fun pl => pl.figures.any fun g => decide (g.fid ≠ f.fid ∧ g.position = (x, y))

/-- All figure identities on a list of players, in scan order. -/
def fidsOf (pls : List Player) : List Nat :=
  pls.foldr (fun pl acc => pl.figures.map (fun g => g.fid) ++ acc) []

/-! State-threaded versions of the read-only `Board` methods called by
`Figure.next_position`.  None of these methods contains an assignment
to an attribute (src/main.py:120-176), so each returns its input board
unchanged next to the computed value; the threading below mirrors the
Python call sequence statement by statement. -/

/-- `Board.next_position` as a state transformer. -/
def Board.next_position_st (b : Board) (x y : Int) : Board × Option (Int × Int) :=
  (b, next_position b.n x y)

/-- `Board.home_position` as a state transformer. -/
def Board.home_position_st (b : Board) (x y : Int) : Board × Option (Int × Int) :=
  (b, home_position b.n x y)

/-- `Board.figure_at` as a state transformer. -/
def Board.figure_at_st (b : Board) (x y : Int) : Board × Option (Figure × Player) :=
  (b, b.figure_at x y)

/-- The loop of `Figure.next_position` (src/main.py:27-32) with the
board state threaded through every call. -/
def figWalk_st : Board → Int × Int → Nat → Int × Int → Board × Option (Int × Int)
  | b, _, 0, p => (b, some p)
  | b, start, k + 1, p =>
    match Board.next_position_st b p.1 p.2 with
    | (b1, none) => (b1, none)
    | (b1, some q) =>
      if q = start then
        match Board.home_position_st b1 q.1 q.2 with
        | (b2, none) => (b2, none)
        | (b2, some r) => figWalk_st b2 start k r
      else figWalk_st b1 start k q

/-- `Figure.next_position` (src/main.py:24-36) with the board and the
figure states threaded through. -/
def Figure.next_position_st (f : Figure) (b : Board) (moves : Nat) :
    Board × Figure × Option (Int × Int) :=
  match figWalk_st b f.start_position moves f.position with
  | (b1, none) => (b1, f, none)
  | (b1, some d) =>
    match Board.figure_at_st b1 d.1 d.2 with
    | (b2, some _) =>
      if box_at b2.n d.1 d.2 = BoardBox.HOME then (b2, f, none) else (b2, f, some d)
    | (b2, none) => (b2, f, some d)

/-- The track of a board of size `n = 2*m+1` in traversal order:
`ringAt m k` is the cell reached from the first entry point
`starts[0] = (m+1, 0)` after `k` advances.  The ring has `8*m = 4*(n-1)`
cells; indices at or beyond `8*m` return the entry point itself. -/
def ringAt (m k : Nat) : Int × Int :=
  if k < m then ((m : Int) + 1, (k : Int))
  else if k ≤ 2*m - 2 then ((k : Int) + 2, (m : Int) - 1)
  else if k = 2*m - 1 then (2*(m : Int), (m : Int))
  else if k ≤ 3*m - 1 then (4*(m : Int) - (k : Int), (m : Int) + 1)
  else if k ≤ 4*m - 2 then ((m : Int) + 1, (k : Int) - 2*(m : Int) + 2)
  else if k = 4*m - 1 then ((m : Int), 2*(m : Int))
  else if k ≤ 5*m - 1 then ((m : Int) - 1, 6*(m : Int) - (k : Int))
  else if k ≤ 6*m - 2 then (6*(m : Int) - 2 - (k : Int), (m : Int) + 1)
  else if k = 6*m - 1 then (0, (m : Int))
  else if k ≤ 7*m - 1 then ((k : Int) - 6*(m : Int), (m : Int) - 1)
  else if k ≤ 8*m - 2 then ((m : Int) - 1, 8*(m : Int) - 2 - (k : Int))
  else if k = 8*m - 1 then ((m : Int), 0)
  else ((m : Int) + 1, 0)

/-! Concrete states used by witnesses and counterexamples. -/

/-- A size-5 board holding a single figure parked on the HOME cell
`(2, 1)`. -/
def homeSoloFig : Figure :=
  { fid := 0, start_position := (3, 0), position := (2, 1), representation := "A" }

def homeSoloBoard : Board :=
  { n := 5, players := [{ representation := "A", home_position := (3, 0), figures := [homeSoloFig] }] }

/-- A size-5 board holding a single figure on the PATH cell `(3, 0)`. -/
def pathSoloFig : Figure :=
  { fid := 0, start_position := (3, 0), position := (3, 0), representation := "A" }

def pathSoloBoard : Board :=
  { n := 5, players := [{ representation := "A", home_position := (3, 0), figures := [pathSoloFig] }] }

/-- A size-5 board with two players, "A" on `(3, 1)` and "B" on
`(4, 2)`. -/
def capMover : Figure :=
  { fid := 0, start_position := (3, 0), position := (3, 1), representation := "A" }

def capBoard : Board :=
  { n := 5,
    players :=
      [{ representation := "A", home_position := (3, 0), figures := [capMover] },
        { representation := "B", home_position := (1, 4),
          figures := [{ fid := 1, start_position := (1, 4), position := (4, 2), representation := "B" }] }] }

/-! ### Basic facts about the classification -/

/-- `box_at` is symmetric under transposition of its coordinates. -/
lemma box_at_comm (n x y : Int) : box_at n x y = box_at n y x := by
  unfold box_at
  split_ifs <;> first | rfl | omega

/-! Branch-evaluation lemmas for `next_position`, one per early return
of the Python method. -/

lemma np_branch1 (n x y : Int) (h : x = n / 2 ∧ y < n / 2 - 1 ∧ y ≠ 0) :
    next_position n x y = some (x, y + 1) := by
  unfold next_position
  rw [if_pos h]

lemma np_branch2 (n x y : Int) (h1 : ¬(x = n / 2 ∧ y < n / 2 - 1 ∧ y ≠ 0))
    (h : x = n / 2 ∧ y > n / 2 + 1 ∧ y ≠ n - 1) :
    next_position n x y = some (x, y - 1) := by
  unfold next_position
  rw [if_neg h1, if_pos h]

lemma np_branch3 (n x y : Int) (h1 : ¬(x = n / 2 ∧ y < n / 2 - 1 ∧ y ≠ 0))
    (h2 : ¬(x = n / 2 ∧ y > n / 2 + 1 ∧ y ≠ n - 1))
    (h : y = n / 2 ∧ x < n / 2 - 1 ∧ x ≠ 0) :
    next_position n x y = some (x + 1, y) := by
  unfold next_position
  rw [if_neg h1, if_neg h2, if_pos h]

lemma np_home_none (n x y : Int) (h1 : ¬(x = n / 2 ∧ y < n / 2 - 1 ∧ y ≠ 0))
    (h2 : ¬(x = n / 2 ∧ y > n / 2 + 1 ∧ y ≠ n - 1))
    (h3 : ¬(y = n / 2 ∧ x < n / 2 - 1 ∧ x ≠ 0))
    (h4 : ¬(y = n / 2 ∧ y > n / 2 + 1 ∧ y ≠ n - 1))
    (hg : boardGrid n x y = BoardBox.HOME) :
    next_position n x y = none := by
  unfold next_position
  rw [if_neg h1, if_neg h2, if_neg h3, if_neg h4, if_pos hg]

lemma np_search (n x y : Int) (h1 : ¬(x = n / 2 ∧ y < n / 2 - 1 ∧ y ≠ 0))
    (h2 : ¬(x = n / 2 ∧ y > n / 2 + 1 ∧ y ≠ n - 1))
    (h3 : ¬(y = n / 2 ∧ x < n / 2 - 1 ∧ x ≠ 0))
    (h4 : ¬(y = n / 2 ∧ y > n / 2 + 1 ∧ y ≠ n - 1))
    (hg : ¬(boardGrid n x y = BoardBox.HOME)) :
    next_position n x y =
      ((if x < n / 2 then (if y > 0 then [(x, y - 1)] else []) else if y < n - 1 then [(x, y + 1)] else []) ++
        (if y < n / 2 then (if x < n - 1 then [(x + 1, y)] else []) else if x > 0 then [(x - 1, y)] else [])).find?
        (fun p => decide (boardGrid n p.2 p.1 = BoardBox.PATH)) := by
  unfold next_position
  rw [if_neg h1, if_neg h2, if_neg h3, if_neg h4, if_neg hg]

/-! ### C1: `box_at` matches the spec's classification rule -/

/-- C1: for every board of odd size `N ≥ 5` and every in-range
coordinate, the cell classification `Board.box_at` equals the spec's
rule with `m = N div 2`: on-axis WALL at the center, PATH at edges,
HOME otherwise; off-axis EMPTY exactly when both coordinates are
strictly outside the band `[m-1, m+1]`, PATH otherwise. -/
theorem box_at_matches_spec (n x y : Int) (hodd : n % 2 = 1) (hn : 5 ≤ n)
    (hx0 : 0 ≤ x) (hx1 : x ≤ n - 1) (hy0 : 0 ≤ y) (hy1 : y ≤ n - 1) :
    box_at n x y = specClassify n x y := by
  unfold box_at specClassify
  split_ifs <;> first | rfl | omega

theorem box_at_matches_spec_witness :
    (5 : Int) % 2 = 1 ∧ (5 : Int) ≤ 5 ∧ box_at 5 0 0 = specClassify 5 0 0 :=
  ⟨by decide, by decide,
    box_at_matches_spec 5 0 0 (by decide) (by decide) (by decide) (by decide) (by decide) (by decide)⟩

/-! ### C10: transposition symmetry of the classification -/

/-- C10: the classification is symmetric under transposition,
`box_at(x, y) = box_at(y, x)`, which makes the transposed grid lookup
`self.board[x][y]` inside `Board.next_position` agree with the
row-major grid built by `_build_board`. -/
theorem box_at_transpose (n x y : Int) (hodd : n % 2 = 1)
    (hx0 : 0 ≤ x) (hx1 : x ≤ n - 1) (hy0 : 0 ≤ y) (hy1 : y ≤ n - 1) :
    box_at n x y = box_at n y x ∧ boardGrid n x y = box_at n x y := by
  refine ⟨box_at_comm n x y, ?_⟩
  unfold boardGrid
  exact box_at_comm n y x

theorem box_at_transpose_witness :
    (5 : Int) % 2 = 1 ∧ box_at 5 1 3 = box_at 5 3 1 ∧ boardGrid 5 1 3 = box_at 5 1 3 := by
  refine ⟨by decide, ?_⟩
  exact box_at_transpose 5 1 3 (by decide) (by decide) (by decide) (by decide) (by decide)

/-! ### C8: which board sizes construct -/

/-- C8 (counterexample): `Board(3)` succeeds although the claim says
every `n` other than odd `n ≥ 5` fails. -/
theorem board_init_three_succeeds :
    (Board.init 3).isSome = true ∧ ¬((3 : Int) % 2 = 1 → 5 ≤ (3 : Int)) := by
  exact ⟨by decide, by decide⟩

/-- C8 (amended): the constructor's `assert n % 2` checks parity only,
so `Board(n)` succeeds for every odd `n` — including `n = 1` and
`n = 3` — and fails exactly for even `n`. -/
theorem board_init_iff_odd (n : Int) :
    (Board.init n).isSome = true ↔ n % 2 ≠ 0 := by
  unfold Board.init
  split_ifs with h <;> simp [h]

theorem board_init_iff_odd_witness : (Board.init 5).isSome = true :=
  (board_init_iff_odd 5).mpr (by decide)

/-! ### C7: `has_finished` -/

/-- C7: `Player.has_finished` is true iff the player owns exactly
`maxFigures = (N-3) div 2` figures and every owned figure is on a HOME
cell; in particular it is false whenever the player owns fewer
figures, even if all owned figures are at HOME. -/
theorem has_finished_iff (b : Board) (p : Player) :
    (p.has_finished b = true ↔
      ((p.figures.length : Int) = (b.n - 3) / 2 ∧
        ∀ f ∈ p.figures, box_at b.n f.position.1 f.position.2 = BoardBox.HOME)) ∧
    ((p.figures.length : Int) < (b.n - 3) / 2 → p.has_finished b = false) := by
  constructor
  · unfold Player.has_finished Player.figures_finished Figure.is_home Board.max_figures
    simp [List.all_eq_true]
  · intro hlt
    unfold Player.has_finished Board.max_figures
    simp only [Bool.and_eq_false_imp, decide_eq_true_eq]
    by_contra hc
    simp only [Bool.not_eq_false, Bool.and_eq_true, decide_eq_true_eq] at hc
    omega

theorem has_finished_iff_witness :
    Player.has_finished
      { representation := "A", home_position := (3, 0),
        figures := [{ fid := 0, start_position := (3, 0), position := (2, 1), representation := "A" }] }
      { n := 5, players := [] } = true := by
  exact (has_finished_iff { n := 5, players := [] } _).1.mpr ⟨by decide, by decide⟩

/-! ### C2: movement on HOME cells -/

/-- C2 (counterexample): on the board of size 7 the HOME cell `(3, 1)`
is not stationary — `next_position` advances it to `(3, 2)`, although
the claim says every HOME cell yields `None`. -/
theorem home_stationary_ce :
    (7 : Int) % 2 = 1 ∧ (5 : Int) ≤ 7 ∧ box_at 7 3 1 = BoardBox.HOME ∧
      next_position 7 3 1 = some (3, 2) := by
  exact ⟨by decide, by decide, by decide, by decide⟩

/-- C2 (amended): on a HOME cell `Board.next_position` advances one
step along the home lane toward the center, except that it returns
`None` on the two lane cells adjacent to the center on the vertical
lane, on the cell left-adjacent to the center, and on the entire east
lane (`y = m`, `x > m + 1`, dead because src/main.py:131 tests `y`
where `x` was meant). -/
theorem home_lane_advance (n x y : Int) (hodd : n % 2 = 1) (hn : 5 ≤ n)
    (hx0 : 0 ≤ x) (hx1 : x ≤ n - 1) (hy0 : 0 ≤ y) (hy1 : y ≤ n - 1)
    (hh : box_at n x y = BoardBox.HOME) :
    next_position n x y =
      if x = n / 2 ∧ y < n / 2 - 1 then some (x, y + 1)
      else if x = n / 2 ∧ n / 2 + 1 < y then some (x, y - 1)
      else if y = n / 2 ∧ x < n / 2 - 1 then some (x + 1, y)
      else none := by
  have hc : (x = n / 2 ∨ y = n / 2) ∧ x ≠ y ∧ x ≠ 0 ∧ x ≠ n - 1 ∧ y ≠ 0 ∧ y ≠ n - 1 := by
    unfold box_at at hh
    split_ifs at hh <;> first | (exact absurd hh (by decide)) | omega
  have hg : boardGrid n x y = BoardBox.HOME := by
    unfold boardGrid
    rw [box_at_comm]
    exact hh
  obtain ⟨haxis, hxy, hxa, hxb, hya, hyb⟩ := hc
  rcases haxis with hx | hy
  · by_cases h1 : y < n / 2 - 1
    · rw [np_branch1 n x y ⟨hx, h1, hya⟩]
      split_ifs <;> first | rfl | omega
    · by_cases h2 : n / 2 + 1 < y
      · rw [np_branch2 n x y (by omega) ⟨hx, h2, hyb⟩]
        split_ifs <;> first | rfl | omega
      · rw [np_home_none n x y (by omega) (by omega) (by omega) (by omega) hg]
        split_ifs <;> first | rfl | omega
  · by_cases h3 : x < n / 2 - 1
    · rw [np_branch3 n x y (by omega) (by omega) ⟨hy, h3, hxa⟩]
      split_ifs <;> first | rfl | omega
    · rw [np_home_none n x y (by omega) (by omega) (by omega) (by omega) hg]
      split_ifs <;> first | rfl | omega

theorem home_lane_advance_witness : next_position 7 3 1 = some (3, 2) := by
  rw [home_lane_advance 7 3 1 (by decide) (by decide) (by decide) (by decide) (by decide)
    (by decide) (by decide)]
  decide

/-! ### C9: `Figure.next_position` leaves all state unchanged -/

lemma figWalk_st_eq (s : Int × Int) :
    ∀ (k : Nat) (b : Board) (p : Int × Int), figWalk_st b s k p = (b, figWalk b.n s k p) := by
  intro k
  induction k with
  | zero => intro b p; rfl
  | succ k ih =>
    intro b p
    unfold figWalk_st figWalk
    simp only [Board.next_position_st, Board.home_position_st]
    cases next_position b.n p.1 p.2 with
    | none => rfl
    | some q =>
      by_cases hq : q = s
      · simp only [if_pos hq]
        cases home_position b.n q.1 q.2 with
        | none => rfl
        | some r => exact ih b r
      · simp only [if_neg hq]
        exact ih b q

lemma next_position_st_eq (f : Figure) (b : Board) (moves : Nat) :
    f.next_position_st b moves = (b, f, f.next_position b moves) := by
  unfold Figure.next_position_st Figure.next_position
  rw [figWalk_st_eq]
  cases figWalk b.n f.start_position moves f.position with
  | none => rfl
  | some d =>
    simp only [Board.figure_at_st]
    cases b.figure_at d.1 d.2 with
    | none => rfl
    | some pr =>
      by_cases hb : box_at b.n d.1 d.2 = BoardBox.HOME
      · simp only [if_pos hb]
      · simp only [if_neg hb]

/-- C9: computing a destination with `Figure.next_position` leaves all
state unchanged: the board (hence every player's figure collection and
the cell grid) and the moving figure come back exactly as they went in,
whether the result is a coordinate or `None`. -/
theorem next_position_frame (b : Board) (f : Figure) (moves : Nat) :
    (f.next_position_st b moves).1 = b ∧
    (f.next_position_st b moves).2.1 = f ∧
    (f.next_position_st b moves).1.players = b.players ∧
    (f.next_position_st b moves).2.1.position = f.position ∧
    (∀ x y : Int, boardGrid (f.next_position_st b moves).1.n x y = boardGrid b.n x y) := by
  rw [next_position_st_eq]
  exact ⟨rfl, rfl, rfl, rfl, fun _ _ => rfl⟩

/-! ### C4: the result cases of `Figure.next_position` -/

/-- C4 (counterexample): with zero steps and the figure itself parked
alone on the HOME cell `(2, 1)`, the walk succeeds at `(2, 1)` and no
*other* figure occupies it, yet `Figure.next_position` returns `None`
(the occupancy check at src/main.py:33-35 sees the mover itself). -/
theorem compute_destination_ce :
    figWalk homeSoloBoard.n homeSoloFig.start_position 0 homeSoloFig.position = some (2, 1) ∧
    box_at homeSoloBoard.n 2 1 = BoardBox.HOME ∧
    occupiedByOther homeSoloBoard homeSoloFig 2 1 = false ∧
    Figure.next_position homeSoloFig homeSoloBoard 0 = none := by
  exact ⟨rfl, by decide, by decide, by decide⟩

/-- C4 (amended): `Figure.next_position` returns `None` whenever some
intermediate advance yields `None`; it never returns a HOME coordinate
occupied by *any* figure (including the moving figure itself, which
matters when the step count is zero); in every other case it returns
the coordinate reached after the given number of steps. -/
theorem compute_destination_cases (b : Board) (f : Figure) (moves : Nat) :
    (figWalk b.n f.start_position moves f.position = none → f.next_position b moves = none) ∧
    (∀ d, f.next_position b moves = some d →
      ¬(box_at b.n d.1 d.2 = BoardBox.HOME ∧ (b.figure_at d.1 d.2).isSome = true)) ∧
    (∀ d, figWalk b.n f.start_position moves f.position = some d →
      ¬(box_at b.n d.1 d.2 = BoardBox.HOME ∧ (b.figure_at d.1 d.2).isSome = true) →
      f.next_position b moves = some d) := by
  refine ⟨?_, ?_, ?_⟩
  · intro h
    unfold Figure.next_position
    rw [h]
  · intro d hd
    unfold Figure.next_position at hd
    cases hw : figWalk b.n f.start_position moves f.position with
    | none => rw [hw] at hd; exact absurd hd (by simp)
    | some d' =>
      rw [hw] at hd
      dsimp only at hd
      cases hf : b.figure_at d'.1 d'.2 with
      | none =>
        rw [hf] at hd
        dsimp only at hd
        simp only [Option.some.injEq] at hd
        subst hd
        rintro ⟨-, hocc⟩
        rw [hf] at hocc
        exact absurd hocc (by simp)
      | some pr =>
        rw [hf] at hd
        dsimp only at hd
        by_cases hb : box_at b.n d'.1 d'.2 = BoardBox.HOME
        · rw [if_pos hb] at hd
          exact absurd hd (by simp)
        · rw [if_neg hb] at hd
          simp only [Option.some.injEq] at hd
          subst hd
          rintro ⟨hb', -⟩
          exact hb hb'
  · intro d hw hnot
    unfold Figure.next_position
    rw [hw]
    dsimp only
    cases hf : b.figure_at d.1 d.2 with
    | none => rfl
    | some pr =>
      dsimp only
      have hb : ¬ box_at b.n d.1 d.2 = BoardBox.HOME := by
        intro h
        exact hnot ⟨h, by rw [hf]; rfl⟩
      rw [if_neg hb]

theorem compute_destination_witness :
    Figure.next_position pathSoloFig pathSoloBoard 1 = some (3, 1) := by
  exact (compute_destination_cases pathSoloBoard pathSoloFig 1).2.2 (3, 1) (by decide) (by decide)

/-! ### C6: `Board.move_figure` captures -/

lemma fidsOf_mem : ∀ {pls : List Player} {pl : Player} {g : Figure},
    pl ∈ pls → g ∈ pl.figures → g.fid ∈ fidsOf pls := by
  intro pls
  induction pls with
  | nil => intro pl g h; exact absurd h (List.not_mem_nil pl)
  | cons p rest ih =>
    intro pl g hpl hg
    have hsplit : fidsOf (p :: rest) = p.figures.map (fun g => g.fid) ++ fidsOf rest := rfl
    rw [hsplit, List.mem_append]
    rcases List.mem_cons.mp hpl with rfl | hmem
    · exact Or.inl (List.mem_map.mpr ⟨g, hg, rfl⟩)
    · exact Or.inr (ih hmem hg)

lemma eraseP_fid {v : Nat} : ∀ {l : List Figure},
    (l.map (fun g => g.fid)).Nodup →
    ∀ g ∈ l.eraseP (fun g => decide (g.fid = v)), g.fid ≠ v := by
  intro l
  induction l with
  | nil => intro _ g hg; exact absurd hg (List.not_mem_nil g)
  | cons a t ih =>
    intro hnd g hg
    have hnd' := hnd
    rw [List.map_cons, List.nodup_cons] at hnd'
    by_cases ha : a.fid = v
    · simp only [List.eraseP_cons, ha, decide_True, cond_true] at hg
      intro hgv
      exact hnd'.1 (by rw [ha, ← hgv]; exact List.mem_map.mpr ⟨g, hg, rfl⟩)
    · simp only [List.eraseP_cons, ha, decide_False, cond_false] at hg
      rcases List.mem_cons.mp hg with rfl | hmem
      · exact ha
      · exact ih hnd'.2 g hmem

lemma findFig_mem : ∀ {pls : List Player} {x y : Int} {df : Figure} {dp : Player},
    findFig pls x y = some (df, dp) → dp ∈ pls ∧ df ∈ dp.figures := by
  intro pls
  induction pls with
  | nil => intro x y df dp h; exact absurd h (by simp [findFig])
  | cons p rest ih =>
    intro x y df dp h
    cases hp : p.figure_at x y with
    | some f =>
      unfold findFig at h
      rw [hp] at h
      simp only [Option.some.injEq, Prod.mk.injEq] at h
      obtain ⟨rfl, rfl⟩ := h
      exact ⟨List.mem_cons_self _ _, List.mem_of_find?_eq_some hp⟩
    | none =>
      unfold findFig at h
      rw [hp] at h
      obtain ⟨h1, h2⟩ := ih h
      exact ⟨List.mem_cons_of_mem _ h1, h2⟩

lemma delPlayers_no_captured : ∀ {pls : List Player} {x y : Int} {df : Figure} {dp : Player},
    findFig pls x y = some (df, dp) → (fidsOf pls).Nodup →
    ∀ pl ∈ delPlayers pls x y, ∀ g ∈ pl.figures, g.fid ≠ df.fid := by
  intro pls
  induction pls with
  | nil => intro x y df dp h; exact absurd h (by simp [findFig])
  | cons p rest ih =>
    intro x y df dp h hnd pl hpl g hg
    have hsplit : fidsOf (p :: rest) = p.figures.map (fun g => g.fid) ++ fidsOf rest := rfl
    rw [hsplit, List.nodup_append] at hnd
    cases hp : p.figure_at x y with
    | some f =>
      have hdf : df = f := by
        unfold findFig at h
        rw [hp] at h
        simp only [Option.some.injEq, Prod.mk.injEq] at h
        exact h.1.symm
      have hdel : delPlayers (p :: rest) x y = p.delete_figure f :: rest := by
        simp only [delPlayers, hp]
      rw [hdel] at hpl
      rcases List.mem_cons.mp hpl with rfl | hmem
      · rw [hdf]
        exact eraseP_fid hnd.1 g hg
      · -- `g` lives with a later player; `f` belongs to `p`, and fids are disjoint
        intro hgf
        have hfp : f ∈ p.figures := List.mem_of_find?_eq_some hp
        have h1 : df.fid ∈ p.figures.map (fun g => g.fid) := by
          rw [hdf]
          exact List.mem_map.mpr ⟨f, hfp, rfl⟩
        have h2 : g.fid ∈ fidsOf rest := fidsOf_mem hmem hg
        exact hnd.2.2 h1 (by rw [← hgf]; exact h2)
    | none =>
      have h' : findFig rest x y = some (df, dp) := by
        unfold findFig at h
        rw [hp] at h
        exact h
      have hdel : delPlayers (p :: rest) x y = p :: delPlayers rest x y := by
        simp only [delPlayers, hp]
      rw [hdel] at hpl
      rcases List.mem_cons.mp hpl with rfl | hmem
      · intro hgf
        obtain ⟨hdp, hdfm⟩ := findFig_mem h'
        have h1 : g.fid ∈ pl.figures.map (fun g => g.fid) := List.mem_map.mpr ⟨g, hg, rfl⟩
        have h2 : df.fid ∈ fidsOf rest := fidsOf_mem hdp hdfm
        exact hnd.2.2 h1 (by rw [hgf]; exact h2)
      · exact ih h' hnd.2.1 pl hmem g hg

lemma setPos_pos (b : Board) (v : Nat) (xy : Int × Int) :
    ∀ pl ∈ (setPos b v xy).players, ∀ g ∈ pl.figures, g.fid = v → g.position = xy := by
  intro pl hpl g hg hfid
  simp only [setPos, List.mem_map] at hpl
  obtain ⟨pl0, -, rfl⟩ := hpl
  simp only [List.mem_map] at hg
  obtain ⟨g0, -, rfl⟩ := hg
  by_cases h : g0.fid = v
  · simp [h]
  · rw [if_neg h] at hfid ⊢
    exact absurd hfid h

lemma setPos_fid_origin (b : Board) (v : Nat) (xy : Int × Int) :
    ∀ pl ∈ (setPos b v xy).players, ∀ g ∈ pl.figures,
      ∃ pl0 ∈ b.players, ∃ g0 ∈ pl0.figures, g0.fid = g.fid := by
  intro pl hpl g hg
  simp only [setPos, List.mem_map] at hpl
  obtain ⟨pl0, hpl0, rfl⟩ := hpl
  simp only [List.mem_map] at hg
  obtain ⟨g0, hg0, rfl⟩ := hg
  refine ⟨pl0, hpl0, g0, hg0, ?_⟩
  by_cases h : g0.fid = v
  · simp [h]
  · simp [h]

/-- C6: `Board.move_figure(figure, x, y)` returns the figure occupying
`(x, y)` if there is one and `None` otherwise, always sets the moving
figure's position to `(x, y)` (also through its aliased list entry),
and the captured figure belongs to no player's collection afterwards
(`fids` assumed pairwise distinct, modelling Python object
identity). -/
theorem move_figure_capture (b : Board) (f : Figure) (x y : Int)
    (hu : (fidsOf b.players).Nodup) :
    (b.move_figure f x y).2.2 = (b.figure_at x y).map Prod.fst ∧
    (b.move_figure f x y).2.1.position = (x, y) ∧
    (∀ pl ∈ (b.move_figure f x y).1.players, ∀ g ∈ pl.figures,
      g.fid = f.fid → g.position = (x, y)) ∧
    (∀ df, (b.move_figure f x y).2.2 = some df →
      ∀ pl ∈ (b.move_figure f x y).1.players, ∀ g ∈ pl.figures, g.fid ≠ df.fid) := by
  cases hf : b.figure_at x y with
  | none =>
    refine ⟨?_, ?_, ?_, ?_⟩
    · simp [Board.move_figure, hf]
    · simp [Board.move_figure, hf]
    · simp only [Board.move_figure, hf]
      exact setPos_pos b f.fid (x, y)
    · intro df hdf
      simp [Board.move_figure, hf] at hdf
  | some pr =>
    refine ⟨?_, ?_, ?_, ?_⟩
    · simp [Board.move_figure, hf]
    · simp [Board.move_figure, hf]
    · simp only [Board.move_figure, hf]
      exact setPos_pos _ f.fid (x, y)
    · intro df hdf pl hpl g hg
      simp only [Board.move_figure, hf] at hdf hpl
      simp only [Option.some.injEq] at hdf
      subst hdf
      obtain ⟨pl0, hpl0, g0, hg0, hfid⟩ := setPos_fid_origin _ f.fid (x, y) pl hpl g hg
      rw [← hfid]
      have hff : findFig b.players x y = some (pr.1, pr.2) := hf
      exact delPlayers_no_captured hff hu pl0 hpl0 g0 hg0

theorem move_figure_capture_witness :
    (fidsOf capBoard.players).Nodup ∧
    (capBoard.move_figure capMover 4 2).2.1.position = (4, 2) :=
  ⟨by decide, (move_figure_capture capBoard capMover 4 2 (by decide)).2.1⟩

/-! ### The track of a board of size `2*m+1`

Evaluation lemmas for `box_at` on a board of size `2*m+1`, then one
lemma per segment of the circular track describing what
`next_position` returns there. -/

lemma box_path_band (m x y : Int) (hm : 2 ≤ m) (hx : x ≠ m) (hy : y ≠ m)
    (h : (m - 1 ≤ x ∧ x ≤ m + 1) ∨ (m - 1 ≤ y ∧ y ≤ m + 1)) :
    box_at (2*m+1) x y = BoardBox.PATH := by
  unfold box_at
  split_ifs <;> first | rfl | omega

lemma box_path_edge (m x y : Int) (hm : 2 ≤ m) (haxis : x = m ∨ y = m) (hxy : x ≠ y)
    (hedge : x = 0 ∨ x = 2*m ∨ y = 0 ∨ y = 2*m) :
    box_at (2*m+1) x y = BoardBox.PATH := by
  unfold box_at
  split_ifs <;> first | rfl | omega

lemma box_home_axis (m x y : Int) (hm : 2 ≤ m)
    (h : (x = m ∧ y ≠ m ∧ 0 < y ∧ y < 2*m) ∨ (y = m ∧ x ≠ m ∧ 0 < x ∧ x < 2*m)) :
    box_at (2*m+1) x y = BoardBox.HOME := by
  unfold box_at
  split_ifs <;> first | rfl | omega

lemma box_empty_corner (m x y : Int) (hm : 2 ≤ m)
    (hx : x < m - 1 ∨ x > m + 1) (hy : y < m - 1 ∨ y > m + 1) :
    box_at (2*m+1) x y = BoardBox.EMPTY := by
  unfold box_at
  split_ifs <;> first | rfl | omega

/-- Down the east column `x = m+1` (both above and below the east arm). -/
lemma np_col_right (m y : Int) (hm : 2 ≤ m) (h0 : 0 ≤ y) (h1 : y ≤ 2*m - 1)
    (h2 : y ≠ m - 1) (h3 : y ≠ m) :
    next_position (2*m+1) (m+1) y = some (m+1, y+1) := by
  have hcell : box_at (2*m+1) (m+1) y = BoardBox.PATH :=
    box_path_band m (m+1) y hm (by omega) h3 (Or.inl ⟨by omega, by omega⟩)
  have hnext : box_at (2*m+1) (m+1) (y+1) = BoardBox.PATH :=
    box_path_band m (m+1) (y+1) hm (by omega) (by omega) (Or.inl ⟨by omega, by omega⟩)
  rw [np_search (2*m+1) (m+1) y (by omega) (by omega) (by omega) (by omega)
    (by unfold boardGrid; rw [box_at_comm, hcell]; simp)]
  rw [if_neg (show ¬((m+1 : Int) < (2*m+1) / 2) from by omega),
    if_pos (show (y : Int) < 2*m+1 - 1 from by omega), List.singleton_append]
  exact List.find?_cons_of_pos _ (by simp [boardGrid, hnext])

/-- Rightwards along the row `y = m-1` on the east arm. -/
lemma np_row_top_right (m x : Int) (hm : 2 ≤ m) (h0 : m + 1 ≤ x) (h1 : x ≤ 2*m - 1) :
    next_position (2*m+1) x (m-1) = some (x+1, m-1) := by
  have hcell : box_at (2*m+1) x (m-1) = BoardBox.PATH :=
    box_path_band m x (m-1) hm (by omega) (by omega) (Or.inr ⟨by omega, by omega⟩)
  have hskip : box_at (2*m+1) x m = BoardBox.HOME :=
    box_home_axis m x m hm (Or.inr ⟨rfl, by omega, by omega, by omega⟩)
  have hnext : box_at (2*m+1) (x+1) (m-1) = BoardBox.PATH :=
    box_path_band m (x+1) (m-1) hm (by omega) (by omega) (Or.inr ⟨by omega, by omega⟩)
  rw [np_search (2*m+1) x (m-1) (by omega) (by omega) (by omega) (by omega)
    (by unfold boardGrid; rw [box_at_comm, hcell]; simp)]
  rw [if_neg (show ¬(x < (2*m+1) / 2) from by omega),
    if_pos (show (m-1 : Int) < 2*m+1 - 1 from by omega),
    if_pos (show (m-1 : Int) < (2*m+1) / 2 from by omega),
    if_pos (show x < 2*m+1 - 1 from by omega), List.singleton_append]
  refine (List.find?_cons_of_neg _ ?_).trans (List.find?_cons_of_pos _ ?_)
  · simp [boardGrid, hskip]
  · simp [boardGrid, hnext]

/-- The east corner `(2m, m-1)` turns onto the edge cell `(2m, m)`. -/
lemma np_corner_e_in (m : Int) (hm : 2 ≤ m) :
    next_position (2*m+1) (2*m) (m-1) = some (2*m, m) := by
  have hcell : box_at (2*m+1) (2*m) (m-1) = BoardBox.PATH :=
    box_path_band m (2*m) (m-1) hm (by omega) (by omega) (Or.inr ⟨by omega, by omega⟩)
  have hnext : box_at (2*m+1) (2*m) m = BoardBox.PATH :=
    box_path_edge m (2*m) m hm (by omega) (by omega) (by omega)
  rw [np_search (2*m+1) (2*m) (m-1) (by omega) (by omega) (by omega) (by omega)
    (by unfold boardGrid; rw [box_at_comm, hcell]; simp)]
  rw [if_neg (show ¬((2*m : Int) < (2*m+1) / 2) from by omega),
    if_pos (show (m-1 : Int) < 2*m+1 - 1 from by omega), List.singleton_append]
  rw [show ((2*m, m-1+1) : Int × Int) = ((2*m, m) : Int × Int) from by refine Prod.ext ?_ ?_ <;> omega]
  exact List.find?_cons_of_pos _ (by simp [boardGrid, hnext])

/-- The east edge cell `(2m, m)` continues to `(2m, m+1)`. -/
lemma np_edge_e (m : Int) (hm : 2 ≤ m) :
    next_position (2*m+1) (2*m) m = some (2*m, m+1) := by
  have hcell : box_at (2*m+1) (2*m) m = BoardBox.PATH :=
    box_path_edge m (2*m) m hm (by omega) (by omega) (by omega)
  have hnext : box_at (2*m+1) (2*m) (m+1) = BoardBox.PATH :=
    box_path_band m (2*m) (m+1) hm (by omega) (by omega) (Or.inr ⟨by omega, by omega⟩)
  rw [np_search (2*m+1) (2*m) m (by omega) (by omega) (by omega) (by omega)
    (by unfold boardGrid; rw [box_at_comm, hcell]; simp)]
  rw [if_neg (show ¬((2*m : Int) < (2*m+1) / 2) from by omega),
    if_pos (show (m : Int) < 2*m+1 - 1 from by omega), List.singleton_append]
  exact List.find?_cons_of_pos _ (by simp [boardGrid, hnext])

/-- Leftwards along the row `y = m+1` on the east arm. -/
lemma np_row_bottom_right (m x : Int) (hm : 2 ≤ m) (h0 : m + 2 ≤ x) (h1 : x ≤ 2*m) :
    next_position (2*m+1) x (m+1) = some (x-1, m+1) := by
  have hcell : box_at (2*m+1) x (m+1) = BoardBox.PATH :=
    box_path_band m x (m+1) hm (by omega) (by omega) (Or.inr ⟨by omega, by omega⟩)
  have hskip : box_at (2*m+1) x (m+1+1) = BoardBox.EMPTY :=
    box_empty_corner m x (m+1+1) hm (by omega) (by omega)
  have hnext : box_at (2*m+1) (x-1) (m+1) = BoardBox.PATH :=
    box_path_band m (x-1) (m+1) hm (by omega) (by omega) (Or.inr ⟨by omega, by omega⟩)
  rw [np_search (2*m+1) x (m+1) (by omega) (by omega) (by omega) (by omega)
    (by unfold boardGrid; rw [box_at_comm, hcell]; simp)]
  rw [if_neg (show ¬(x < (2*m+1) / 2) from by omega),
    if_pos (show (m+1 : Int) < 2*m+1 - 1 from by omega),
    if_neg (show ¬((m+1 : Int) < (2*m+1) / 2) from by omega),
    if_pos (show x > 0 from by omega), List.singleton_append]
  refine (List.find?_cons_of_neg _ ?_).trans (List.find?_cons_of_pos _ ?_)
  · simp [boardGrid, hskip]
  · simp [boardGrid, hnext]

/-- The south-east corner `(m+1, 2m)` turns onto the edge cell `(m, 2m)`. -/
lemma np_corner_se (m : Int) (hm : 2 ≤ m) :
    next_position (2*m+1) (m+1) (2*m) = some (m, 2*m) := by
  have hcell : box_at (2*m+1) (m+1) (2*m) = BoardBox.PATH :=
    box_path_band m (m+1) (2*m) hm (by omega) (by omega) (Or.inl ⟨by omega, by omega⟩)
  have hnext : box_at (2*m+1) m (2*m) = BoardBox.PATH :=
    box_path_edge m m (2*m) hm (by omega) (by omega) (by omega)
  rw [np_search (2*m+1) (m+1) (2*m) (by omega) (by omega) (by omega) (by omega)
    (by unfold boardGrid; rw [box_at_comm, hcell]; simp)]
  rw [if_neg (show ¬((m+1 : Int) < (2*m+1) / 2) from by omega),
    if_neg (show ¬((2*m : Int) < 2*m+1 - 1) from by omega),
    if_neg (show ¬((2*m : Int) < (2*m+1) / 2) from by omega),
    if_pos (show (m+1 : Int) > 0 from by omega), List.nil_append]
  rw [show ((m+1-1, 2*m) : Int × Int) = ((m, 2*m) : Int × Int) from by refine Prod.ext ?_ ?_ <;> omega]
  exact List.find?_cons_of_pos _ (by simp [boardGrid, hnext])

/-- The south edge cell `(m, 2m)` continues to `(m-1, 2m)`. -/
lemma np_edge_s (m : Int) (hm : 2 ≤ m) :
    next_position (2*m+1) m (2*m) = some (m-1, 2*m) := by
  have hcell : box_at (2*m+1) m (2*m) = BoardBox.PATH :=
    box_path_edge m m (2*m) hm (by omega) (by omega) (by omega)
  have hnext : box_at (2*m+1) (m-1) (2*m) = BoardBox.PATH :=
    box_path_band m (m-1) (2*m) hm (by omega) (by omega) (Or.inl ⟨by omega, by omega⟩)
  rw [np_search (2*m+1) m (2*m) (by omega) (by omega) (by omega) (by omega)
    (by unfold boardGrid; rw [box_at_comm, hcell]; simp)]
  rw [if_neg (show ¬((m : Int) < (2*m+1) / 2) from by omega),
    if_neg (show ¬((2*m : Int) < 2*m+1 - 1) from by omega),
    if_neg (show ¬((2*m : Int) < (2*m+1) / 2) from by omega),
    if_pos (show (m : Int) > 0 from by omega), List.nil_append]
  exact List.find?_cons_of_pos _ (by simp [boardGrid, hnext])

/-- Up the west column `x = m-1` (both below and above the west arm). -/
lemma np_col_left (m y : Int) (hm : 2 ≤ m) (h0 : 1 ≤ y) (h1 : y ≤ 2*m)
    (h2 : y ≠ m) (h3 : y ≠ m + 1) :
    next_position (2*m+1) (m-1) y = some (m-1, y-1) := by
  have hcell : box_at (2*m+1) (m-1) y = BoardBox.PATH :=
    box_path_band m (m-1) y hm (by omega) h2 (Or.inl ⟨by omega, by omega⟩)
  have hnext : box_at (2*m+1) (m-1) (y-1) = BoardBox.PATH :=
    box_path_band m (m-1) (y-1) hm (by omega) (by omega) (Or.inl ⟨by omega, by omega⟩)
  rw [np_search (2*m+1) (m-1) y (by omega) (by omega) (by omega) (by omega)
    (by unfold boardGrid; rw [box_at_comm, hcell]; simp)]
  rw [if_pos (show (m-1 : Int) < (2*m+1) / 2 from by omega),
    if_pos (show y > 0 from by omega), List.singleton_append]
  exact List.find?_cons_of_pos _ (by simp [boardGrid, hnext])

/-- Leftwards along the row `y = m+1` on the west arm. -/
lemma np_row_bottom_left (m x : Int) (hm : 2 ≤ m) (h0 : 1 ≤ x) (h1 : x ≤ m - 1) :
    next_position (2*m+1) x (m+1) = some (x-1, m+1) := by
  have hcell : box_at (2*m+1) x (m+1) = BoardBox.PATH :=
    box_path_band m x (m+1) hm (by omega) (by omega) (Or.inr ⟨by omega, by omega⟩)
  have hskip : box_at (2*m+1) x m = BoardBox.HOME :=
    box_home_axis m x m hm (Or.inr ⟨rfl, by omega, by omega, by omega⟩)
  have hnext : box_at (2*m+1) (x-1) (m+1) = BoardBox.PATH :=
    box_path_band m (x-1) (m+1) hm (by omega) (by omega) (Or.inr ⟨by omega, by omega⟩)
  rw [np_search (2*m+1) x (m+1) (by omega) (by omega) (by omega) (by omega)
    (by unfold boardGrid; rw [box_at_comm, hcell]; simp)]
  rw [if_pos (show x < (2*m+1) / 2 from by omega),
    if_pos (show (m+1 : Int) > 0 from by omega),
    if_neg (show ¬((m+1 : Int) < (2*m+1) / 2) from by omega),
    if_pos (show x > 0 from by omega), List.singleton_append]
  refine (List.find?_cons_of_neg _ ?_).trans (List.find?_cons_of_pos _ ?_)
  · simp [boardGrid, hskip]
  · simp [boardGrid, hnext]

/-- The south-west corner `(0, m+1)` turns onto the edge cell `(0, m)`. -/
lemma np_corner_sw (m : Int) (hm : 2 ≤ m) :
    next_position (2*m+1) 0 (m+1) = some (0, m) := by
  have hcell : box_at (2*m+1) 0 (m+1) = BoardBox.PATH :=
    box_path_band m 0 (m+1) hm (by omega) (by omega) (Or.inr ⟨by omega, by omega⟩)
  have hnext : box_at (2*m+1) 0 m = BoardBox.PATH :=
    box_path_edge m 0 m hm (by omega) (by omega) (by omega)
  rw [np_search (2*m+1) 0 (m+1) (by omega) (by omega) (by omega) (by omega)
    (by unfold boardGrid; rw [box_at_comm, hcell]; simp)]
  rw [if_pos (show (0 : Int) < (2*m+1) / 2 from by omega),
    if_pos (show (m+1 : Int) > 0 from by omega), List.singleton_append]
  rw [show ((0, m+1-1) : Int × Int) = ((0, m) : Int × Int) from by refine Prod.ext ?_ ?_ <;> omega]
  exact List.find?_cons_of_pos _ (by simp [boardGrid, hnext])

/-- The west edge cell `(0, m)` continues to `(0, m-1)`. -/
lemma np_edge_w (m : Int) (hm : 2 ≤ m) :
    next_position (2*m+1) 0 m = some (0, m-1) := by
  have hcell : box_at (2*m+1) 0 m = BoardBox.PATH :=
    box_path_edge m 0 m hm (by omega) (by omega) (by omega)
  have hnext : box_at (2*m+1) 0 (m-1) = BoardBox.PATH :=
    box_path_band m 0 (m-1) hm (by omega) (by omega) (Or.inr ⟨by omega, by omega⟩)
  rw [np_search (2*m+1) 0 m (by omega) (by omega) (by omega) (by omega)
    (by unfold boardGrid; rw [box_at_comm, hcell]; simp)]
  rw [if_pos (show (0 : Int) < (2*m+1) / 2 from by omega),
    if_pos (show (m : Int) > 0 from by omega), List.singleton_append]
  exact List.find?_cons_of_pos _ (by simp [boardGrid, hnext])

/-- Rightwards along the row `y = m-1` on the west arm. -/
lemma np_row_top_left (m x : Int) (hm : 2 ≤ m) (h0 : 0 ≤ x) (h1 : x ≤ m - 2) :
    next_position (2*m+1) x (m-1) = some (x+1, m-1) := by
  have hcell : box_at (2*m+1) x (m-1) = BoardBox.PATH :=
    box_path_band m x (m-1) hm (by omega) (by omega) (Or.inr ⟨by omega, by omega⟩)
  have hskip : box_at (2*m+1) x (m-1-1) = BoardBox.EMPTY :=
    box_empty_corner m x (m-1-1) hm (by omega) (by omega)
  have hnext : box_at (2*m+1) (x+1) (m-1) = BoardBox.PATH :=
    box_path_band m (x+1) (m-1) hm (by omega) (by omega) (Or.inr ⟨by omega, by omega⟩)
  rw [np_search (2*m+1) x (m-1) (by omega) (by omega) (by omega) (by omega)
    (by unfold boardGrid; rw [box_at_comm, hcell]; simp)]
  rw [if_pos (show x < (2*m+1) / 2 from by omega),
    if_pos (show (m-1 : Int) > 0 from by omega),
    if_pos (show (m-1 : Int) < (2*m+1) / 2 from by omega),
    if_pos (show x < 2*m+1 - 1 from by omega), List.singleton_append]
  refine (List.find?_cons_of_neg _ ?_).trans (List.find?_cons_of_pos _ ?_)
  · simp [boardGrid, hskip]
  · simp [boardGrid, hnext]

/-- The north-west corner `(m-1, 0)` turns onto the edge cell `(m, 0)`. -/
lemma np_corner_nw (m : Int) (hm : 2 ≤ m) :
    next_position (2*m+1) (m-1) 0 = some (m, 0) := by
  have hcell : box_at (2*m+1) (m-1) 0 = BoardBox.PATH :=
    box_path_band m (m-1) 0 hm (by omega) (by omega) (Or.inl ⟨by omega, by omega⟩)
  have hnext : box_at (2*m+1) m 0 = BoardBox.PATH :=
    box_path_edge m m 0 hm (by omega) (by omega) (by omega)
  rw [np_search (2*m+1) (m-1) 0 (by omega) (by omega) (by omega) (by omega)
    (by unfold boardGrid; rw [box_at_comm, hcell]; simp)]
  rw [if_pos (show (m-1 : Int) < (2*m+1) / 2 from by omega),
    if_neg (show ¬((0 : Int) > 0) from by omega),
    if_pos (show (0 : Int) < (2*m+1) / 2 from by omega),
    if_pos (show (m-1 : Int) < 2*m+1 - 1 from by omega), List.nil_append]
  rw [show ((m-1+1, 0) : Int × Int) = ((m, 0) : Int × Int) from by refine Prod.ext ?_ ?_ <;> omega]
  exact List.find?_cons_of_pos _ (by simp [boardGrid, hnext])

/-- The north edge cell `(m, 0)` continues to the entry point `(m+1, 0)`. -/
lemma np_edge_n (m : Int) (hm : 2 ≤ m) :
    next_position (2*m+1) m 0 = some (m+1, 0) := by
  have hcell : box_at (2*m+1) m 0 = BoardBox.PATH :=
    box_path_edge m m 0 hm (by omega) (by omega) (by omega)
  have hskip : box_at (2*m+1) m 1 = BoardBox.HOME :=
    box_home_axis m m 1 hm (Or.inl ⟨rfl, by omega, by omega, by omega⟩)
  have hnext : box_at (2*m+1) (m+1) 0 = BoardBox.PATH :=
    box_path_band m (m+1) 0 hm (by omega) (by omega) (Or.inl ⟨by omega, by omega⟩)
  rw [np_search (2*m+1) m 0 (by omega) (by omega) (by omega) (by omega)
    (by unfold boardGrid; rw [box_at_comm, hcell]; simp)]
  rw [if_neg (show ¬((m : Int) < (2*m+1) / 2) from by omega),
    if_pos (show (0 : Int) < 2*m+1 - 1 from by omega),
    if_pos (show (0 : Int) < (2*m+1) / 2 from by omega),
    if_pos (show (m : Int) < 2*m+1 - 1 from by omega), List.singleton_append]
  refine (List.find?_cons_of_neg _ ?_).trans (List.find?_cons_of_pos _ ?_)
  · simp [boardGrid, hskip]
  · simp [boardGrid, hnext]


/-! Branch-evaluation lemmas for `ringAt`, one per arm of its
definition. -/

lemma ringAt_aev (m k : Nat) (h : k < m) :
    ringAt m k = ((m:Int)+1, (k:Int)) := by
  unfold ringAt
  rw [if_pos h]

lemma ringAt_bev (m k : Nat) (n0 : ¬(k < m)) (h : k ≤ 2*m - 2) :
    ringAt m k = ((k:Int)+2, (m:Int)-1) := by
  unfold ringAt
  rw [if_neg n0, if_pos h]

lemma ringAt_cev (m k : Nat) (n0 : ¬(k < m)) (n1 : ¬(k ≤ 2*m - 2)) (h : k = 2*m - 1) :
    ringAt m k = (2*(m:Int), (m:Int)) := by
  unfold ringAt
  rw [if_neg n0, if_neg n1, if_pos h]

lemma ringAt_dev (m k : Nat) (n0 : ¬(k < m)) (n1 : ¬(k ≤ 2*m - 2)) (n2 : ¬(k = 2*m - 1)) (h : k ≤ 3*m - 1) :
    ringAt m k = (4*(m:Int)-(k:Int), (m:Int)+1) := by
  unfold ringAt
  rw [if_neg n0, if_neg n1, if_neg n2, if_pos h]

lemma ringAt_eev (m k : Nat) (n0 : ¬(k < m)) (n1 : ¬(k ≤ 2*m - 2)) (n2 : ¬(k = 2*m - 1)) (n3 : ¬(k ≤ 3*m - 1)) (h : k ≤ 4*m - 2) :
    ringAt m k = ((m:Int)+1, (k:Int)-2*(m:Int)+2) := by
  unfold ringAt
  rw [if_neg n0, if_neg n1, if_neg n2, if_neg n3, if_pos h]

lemma ringAt_fev (m k : Nat) (n0 : ¬(k < m)) (n1 : ¬(k ≤ 2*m - 2)) (n2 : ¬(k = 2*m - 1)) (n3 : ¬(k ≤ 3*m - 1)) (n4 : ¬(k ≤ 4*m - 2)) (h : k = 4*m - 1) :
    ringAt m k = ((m:Int), 2*(m:Int)) := by
  unfold ringAt
  rw [if_neg n0, if_neg n1, if_neg n2, if_neg n3, if_neg n4, if_pos h]

lemma ringAt_gev (m k : Nat) (n0 : ¬(k < m)) (n1 : ¬(k ≤ 2*m - 2)) (n2 : ¬(k = 2*m - 1)) (n3 : ¬(k ≤ 3*m - 1)) (n4 : ¬(k ≤ 4*m - 2)) (n5 : ¬(k = 4*m - 1)) (h : k ≤ 5*m - 1) :
    ringAt m k = ((m:Int)-1, 6*(m:Int)-(k:Int)) := by
  unfold ringAt
  rw [if_neg n0, if_neg n1, if_neg n2, if_neg n3, if_neg n4, if_neg n5, if_pos h]

lemma ringAt_hev (m k : Nat) (n0 : ¬(k < m)) (n1 : ¬(k ≤ 2*m - 2)) (n2 : ¬(k = 2*m - 1)) (n3 : ¬(k ≤ 3*m - 1)) (n4 : ¬(k ≤ 4*m - 2)) (n5 : ¬(k = 4*m - 1)) (n6 : ¬(k ≤ 5*m - 1)) (h : k ≤ 6*m - 2) :
    ringAt m k = (6*(m:Int)-2-(k:Int), (m:Int)+1) := by
  unfold ringAt
  rw [if_neg n0, if_neg n1, if_neg n2, if_neg n3, if_neg n4, if_neg n5, if_neg n6, if_pos h]

lemma ringAt_iev (m k : Nat) (n0 : ¬(k < m)) (n1 : ¬(k ≤ 2*m - 2)) (n2 : ¬(k = 2*m - 1)) (n3 : ¬(k ≤ 3*m - 1)) (n4 : ¬(k ≤ 4*m - 2)) (n5 : ¬(k = 4*m - 1)) (n6 : ¬(k ≤ 5*m - 1)) (n7 : ¬(k ≤ 6*m - 2)) (h : k = 6*m - 1) :
    ringAt m k = (0, (m:Int)) := by
  unfold ringAt
  rw [if_neg n0, if_neg n1, if_neg n2, if_neg n3, if_neg n4, if_neg n5, if_neg n6, if_neg n7, if_pos h]

lemma ringAt_jev (m k : Nat) (n0 : ¬(k < m)) (n1 : ¬(k ≤ 2*m - 2)) (n2 : ¬(k = 2*m - 1)) (n3 : ¬(k ≤ 3*m - 1)) (n4 : ¬(k ≤ 4*m - 2)) (n5 : ¬(k = 4*m - 1)) (n6 : ¬(k ≤ 5*m - 1)) (n7 : ¬(k ≤ 6*m - 2)) (n8 : ¬(k = 6*m - 1)) (h : k ≤ 7*m - 1) :
    ringAt m k = ((k:Int)-6*(m:Int), (m:Int)-1) := by
  unfold ringAt
  rw [if_neg n0, if_neg n1, if_neg n2, if_neg n3, if_neg n4, if_neg n5, if_neg n6, if_neg n7, if_neg n8, if_pos h]

lemma ringAt_kev (m k : Nat) (n0 : ¬(k < m)) (n1 : ¬(k ≤ 2*m - 2)) (n2 : ¬(k = 2*m - 1)) (n3 : ¬(k ≤ 3*m - 1)) (n4 : ¬(k ≤ 4*m - 2)) (n5 : ¬(k = 4*m - 1)) (n6 : ¬(k ≤ 5*m - 1)) (n7 : ¬(k ≤ 6*m - 2)) (n8 : ¬(k = 6*m - 1)) (n9 : ¬(k ≤ 7*m - 1)) (h : k ≤ 8*m - 2) :
    ringAt m k = ((m:Int)-1, 8*(m:Int)-2-(k:Int)) := by
  unfold ringAt
  rw [if_neg n0, if_neg n1, if_neg n2, if_neg n3, if_neg n4, if_neg n5, if_neg n6, if_neg n7, if_neg n8, if_neg n9, if_pos h]

lemma ringAt_lev (m k : Nat) (n0 : ¬(k < m)) (n1 : ¬(k ≤ 2*m - 2)) (n2 : ¬(k = 2*m - 1)) (n3 : ¬(k ≤ 3*m - 1)) (n4 : ¬(k ≤ 4*m - 2)) (n5 : ¬(k = 4*m - 1)) (n6 : ¬(k ≤ 5*m - 1)) (n7 : ¬(k ≤ 6*m - 2)) (n8 : ¬(k = 6*m - 1)) (n9 : ¬(k ≤ 7*m - 1)) (n10 : ¬(k ≤ 8*m - 2)) (h : k = 8*m - 1) :
    ringAt m k = ((m:Int), 0) := by
  unfold ringAt
  rw [if_neg n0, if_neg n1, if_neg n2, if_neg n3, if_neg n4, if_neg n5, if_neg n6, if_neg n7, if_neg n8, if_neg n9, if_neg n10, if_pos h]

lemma ringAt_mev (m k : Nat) (n0 : ¬(k < m)) (n1 : ¬(k ≤ 2*m - 2)) (n2 : ¬(k = 2*m - 1)) (n3 : ¬(k ≤ 3*m - 1)) (n4 : ¬(k ≤ 4*m - 2)) (n5 : ¬(k = 4*m - 1)) (n6 : ¬(k ≤ 5*m - 1)) (n7 : ¬(k ≤ 6*m - 2)) (n8 : ¬(k = 6*m - 1)) (n9 : ¬(k ≤ 7*m - 1)) (n10 : ¬(k ≤ 8*m - 2)) (n11 : ¬(k = 8*m - 1)) :
    ringAt m k = ((m:Int)+1, 0) := by
  unfold ringAt
  rw [if_neg n0, if_neg n1, if_neg n2, if_neg n3, if_neg n4, if_neg n5, if_neg n6, if_neg n7, if_neg n8, if_neg n9, if_neg n10, if_neg n11]

/-- One advance along the track: from ring position `k` the board's
`next_position` moves to ring position `k+1`. -/
lemma ring_step (m k : Nat) (hm : 2 ≤ m) (hk : k < 8*m) :
    next_position (2*(m:Int)+1) (ringAt m k).1 (ringAt m k).2 = some (ringAt m (k+1)) := by
  have hcase : k + 2 ≤ m ∨ (m - 1 ≤ k ∧ k + 3 ≤ 2*m) ∨ k = 2*m - 2 ∨ k = 2*m - 1 ∨
      (2*m ≤ k ∧ k + 2 ≤ 3*m) ∨ (3*m - 1 ≤ k ∧ k + 3 ≤ 4*m) ∨ k = 4*m - 2 ∨ k = 4*m - 1 ∨
      (4*m ≤ k ∧ k + 2 ≤ 5*m) ∨ (5*m - 1 ≤ k ∧ k + 3 ≤ 6*m) ∨ k = 6*m - 2 ∨ k = 6*m - 1 ∨
      (6*m ≤ k ∧ k + 2 ≤ 7*m) ∨ (7*m - 1 ≤ k ∧ k + 3 ≤ 8*m) ∨ k = 8*m - 2 ∨ k = 8*m - 1 := by
    omega
  rcases hcase with h | h | h | h | h | h | h | h | h | h | h | h | h | h | h | h
  · have e1 : ringAt m k = ((m:Int)+1, (k:Int)) :=
      (ringAt_aev m k (by omega)).trans (by refine Prod.ext ?_ ?_ <;> omega)
    have e2 : ringAt m (k+1) = ((m:Int)+1, (k:Int)+1) :=
      (ringAt_aev m (k+1) (by omega)).trans (by refine Prod.ext ?_ ?_ <;> omega)
    rw [e1, e2]
    exact np_col_right (m:Int) (k:Int) (by omega) (by omega) (by omega) (by omega) (by omega)
  · have e1 : ringAt m k = ((k:Int)+2, (m:Int)-1) := by
      rcases Nat.lt_or_ge k m with hc | hc
      · exact (ringAt_aev m k hc).trans (by refine Prod.ext ?_ ?_ <;> omega)
      · exact (ringAt_bev m k (by omega) (by omega)).trans
          (by refine Prod.ext ?_ ?_ <;> omega)
    have e2 : ringAt m (k+1) = ((k:Int)+2+1, (m:Int)-1) :=
      (ringAt_bev m (k+1) (by omega) (by omega)).trans (by refine Prod.ext ?_ ?_ <;> omega)
    rw [e1, e2]
    exact np_row_top_right (m:Int) ((k:Int)+2) (by omega) (by omega) (by omega)
  · have e1 : ringAt m k = (2*(m:Int), (m:Int)-1) :=
      (ringAt_bev m k (by omega) (by omega)).trans (by refine Prod.ext ?_ ?_ <;> omega)
    have e2 : ringAt m (k+1) = (2*(m:Int), (m:Int)) :=
      (ringAt_cev m (k+1) (by omega) (by omega) (by omega)).trans (by refine Prod.ext ?_ ?_ <;> omega)
    rw [e1, e2]
    exact np_corner_e_in (m:Int) (by omega)
  · have e1 : ringAt m k = (2*(m:Int), (m:Int)) :=
      (ringAt_cev m k (by omega) (by omega) (by omega)).trans (by refine Prod.ext ?_ ?_ <;> omega)
    have e2 : ringAt m (k+1) = (2*(m:Int), (m:Int)+1) :=
      (ringAt_dev m (k+1) (by omega) (by omega) (by omega) (by omega)).trans (by refine Prod.ext ?_ ?_ <;> omega)
    rw [e1, e2]
    exact np_edge_e (m:Int) (by omega)
  · have e1 : ringAt m k = (4*(m:Int)-(k:Int), (m:Int)+1) :=
      (ringAt_dev m k (by omega) (by omega) (by omega) (by omega)).trans (by refine Prod.ext ?_ ?_ <;> omega)
    have e2 : ringAt m (k+1) = (4*(m:Int)-(k:Int)-1, (m:Int)+1) :=
      (ringAt_dev m (k+1) (by omega) (by omega) (by omega) (by omega)).trans (by refine Prod.ext ?_ ?_ <;> omega)
    rw [e1, e2]
    exact np_row_bottom_right (m:Int) (4*(m:Int)-(k:Int)) (by omega) (by omega) (by omega)
  · have e1 : ringAt m k = ((m:Int)+1, (k:Int)-2*(m:Int)+2) := by
      rcases Nat.lt_or_ge k (3*m) with hc | hc
      · exact (ringAt_dev m k (by omega) (by omega) (by omega) (by omega)).trans
          (by refine Prod.ext ?_ ?_ <;> omega)
      · exact (ringAt_eev m k (by omega) (by omega) (by omega) (by omega) (by omega)).trans
          (by refine Prod.ext ?_ ?_ <;> omega)
    have e2 : ringAt m (k+1) = ((m:Int)+1, (k:Int)-2*(m:Int)+2+1) :=
      (ringAt_eev m (k+1) (by omega) (by omega) (by omega) (by omega) (by omega)).trans (by refine Prod.ext ?_ ?_ <;> omega)
    rw [e1, e2]
    exact np_col_right (m:Int) ((k:Int)-2*(m:Int)+2) (by omega) (by omega) (by omega) (by omega) (by omega)
  · have e1 : ringAt m k = ((m:Int)+1, 2*(m:Int)) :=
      (ringAt_eev m k (by omega) (by omega) (by omega) (by omega) (by omega)).trans (by refine Prod.ext ?_ ?_ <;> omega)
    have e2 : ringAt m (k+1) = ((m:Int), 2*(m:Int)) :=
      (ringAt_fev m (k+1) (by omega) (by omega) (by omega) (by omega) (by omega) (by omega)).trans (by refine Prod.ext ?_ ?_ <;> omega)
    rw [e1, e2]
    exact np_corner_se (m:Int) (by omega)
  · have e1 : ringAt m k = ((m:Int), 2*(m:Int)) :=
      (ringAt_fev m k (by omega) (by omega) (by omega) (by omega) (by omega) (by omega)).trans (by refine Prod.ext ?_ ?_ <;> omega)
    have e2 : ringAt m (k+1) = ((m:Int)-1, 2*(m:Int)) :=
      (ringAt_gev m (k+1) (by omega) (by omega) (by omega) (by omega) (by omega) (by omega) (by omega)).trans (by refine Prod.ext ?_ ?_ <;> omega)
    rw [e1, e2]
    exact np_edge_s (m:Int) (by omega)
  · have e1 : ringAt m k = ((m:Int)-1, 6*(m:Int)-(k:Int)) :=
      (ringAt_gev m k (by omega) (by omega) (by omega) (by omega) (by omega) (by omega) (by omega)).trans (by refine Prod.ext ?_ ?_ <;> omega)
    have e2 : ringAt m (k+1) = ((m:Int)-1, 6*(m:Int)-(k:Int)-1) :=
      (ringAt_gev m (k+1) (by omega) (by omega) (by omega) (by omega) (by omega) (by omega) (by omega)).trans (by refine Prod.ext ?_ ?_ <;> omega)
    rw [e1, e2]
    exact np_col_left (m:Int) (6*(m:Int)-(k:Int)) (by omega) (by omega) (by omega) (by omega) (by omega)
  · have e1 : ringAt m k = (6*(m:Int)-2-(k:Int), (m:Int)+1) := by
      rcases Nat.lt_or_ge k (5*m) with hc | hc
      · exact (ringAt_gev m k (by omega) (by omega) (by omega) (by omega) (by omega) (by omega)
          (by omega)).trans (by refine Prod.ext ?_ ?_ <;> omega)
      · exact (ringAt_hev m k (by omega) (by omega) (by omega) (by omega) (by omega) (by omega)
          (by omega) (by omega)).trans (by refine Prod.ext ?_ ?_ <;> omega)
    have e2 : ringAt m (k+1) = (6*(m:Int)-2-(k:Int)-1, (m:Int)+1) :=
      (ringAt_hev m (k+1) (by omega) (by omega) (by omega) (by omega) (by omega) (by omega) (by omega) (by omega)).trans (by refine Prod.ext ?_ ?_ <;> omega)
    rw [e1, e2]
    exact np_row_bottom_left (m:Int) (6*(m:Int)-2-(k:Int)) (by omega) (by omega) (by omega)
  · have e1 : ringAt m k = (0, (m:Int)+1) :=
      (ringAt_hev m k (by omega) (by omega) (by omega) (by omega) (by omega) (by omega) (by omega) (by omega)).trans (by refine Prod.ext ?_ ?_ <;> omega)
    have e2 : ringAt m (k+1) = (0, (m:Int)) :=
      (ringAt_iev m (k+1) (by omega) (by omega) (by omega) (by omega) (by omega) (by omega) (by omega) (by omega) (by omega)).trans (by refine Prod.ext ?_ ?_ <;> omega)
    rw [e1, e2]
    exact np_corner_sw (m:Int) (by omega)
  · have e1 : ringAt m k = (0, (m:Int)) :=
      (ringAt_iev m k (by omega) (by omega) (by omega) (by omega) (by omega) (by omega) (by omega) (by omega) (by omega)).trans (by refine Prod.ext ?_ ?_ <;> omega)
    have e2 : ringAt m (k+1) = (0, (m:Int)-1) :=
      (ringAt_jev m (k+1) (by omega) (by omega) (by omega) (by omega) (by omega) (by omega) (by omega) (by omega) (by omega) (by omega)).trans (by refine Prod.ext ?_ ?_ <;> omega)
    rw [e1, e2]
    exact np_edge_w (m:Int) (by omega)
  · have e1 : ringAt m k = ((k:Int)-6*(m:Int), (m:Int)-1) :=
      (ringAt_jev m k (by omega) (by omega) (by omega) (by omega) (by omega) (by omega) (by omega) (by omega) (by omega) (by omega)).trans (by refine Prod.ext ?_ ?_ <;> omega)
    have e2 : ringAt m (k+1) = ((k:Int)-6*(m:Int)+1, (m:Int)-1) :=
      (ringAt_jev m (k+1) (by omega) (by omega) (by omega) (by omega) (by omega) (by omega) (by omega) (by omega) (by omega) (by omega)).trans (by refine Prod.ext ?_ ?_ <;> omega)
    rw [e1, e2]
    exact np_row_top_left (m:Int) ((k:Int)-6*(m:Int)) (by omega) (by omega) (by omega)
  · have e1 : ringAt m k = ((m:Int)-1, 8*(m:Int)-2-(k:Int)) := by
      rcases Nat.lt_or_ge k (7*m) with hc | hc
      · exact (ringAt_jev m k (by omega) (by omega) (by omega) (by omega) (by omega) (by omega)
          (by omega) (by omega) (by omega) (by omega)).trans
          (by refine Prod.ext ?_ ?_ <;> omega)
      · exact (ringAt_kev m k (by omega) (by omega) (by omega) (by omega) (by omega) (by omega)
          (by omega) (by omega) (by omega) (by omega) (by omega)).trans
          (by refine Prod.ext ?_ ?_ <;> omega)
    have e2 : ringAt m (k+1) = ((m:Int)-1, 8*(m:Int)-2-(k:Int)-1) :=
      (ringAt_kev m (k+1) (by omega) (by omega) (by omega) (by omega) (by omega) (by omega) (by omega) (by omega) (by omega) (by omega) (by omega)).trans (by refine Prod.ext ?_ ?_ <;> omega)
    rw [e1, e2]
    exact np_col_left (m:Int) (8*(m:Int)-2-(k:Int)) (by omega) (by omega) (by omega) (by omega) (by omega)
  · have e1 : ringAt m k = ((m:Int)-1, 0) :=
      (ringAt_kev m k (by omega) (by omega) (by omega) (by omega) (by omega) (by omega) (by omega) (by omega) (by omega) (by omega) (by omega)).trans (by refine Prod.ext ?_ ?_ <;> omega)
    have e2 : ringAt m (k+1) = ((m:Int), 0) :=
      (ringAt_lev m (k+1) (by omega) (by omega) (by omega) (by omega) (by omega) (by omega) (by omega) (by omega) (by omega) (by omega) (by omega) (by omega)).trans (by refine Prod.ext ?_ ?_ <;> omega)
    rw [e1, e2]
    exact np_corner_nw (m:Int) (by omega)
  · have e1 : ringAt m k = ((m:Int), 0) :=
      (ringAt_lev m k (by omega) (by omega) (by omega) (by omega) (by omega) (by omega) (by omega) (by omega) (by omega) (by omega) (by omega) (by omega)).trans (by refine Prod.ext ?_ ?_ <;> omega)
    have e2 : ringAt m (k+1) = ((m:Int)+1, 0) :=
      (ringAt_mev m (k+1) (by omega) (by omega) (by omega) (by omega) (by omega) (by omega) (by omega) (by omega) (by omega) (by omega) (by omega) (by omega)).trans (by refine Prod.ext ?_ ?_ <;> omega)
    rw [e1, e2]
    exact np_edge_n (m:Int) (by omega)

/-- Every cell of the ring is a PATH cell. -/
lemma ring_path (m : Nat) (hm : 2 ≤ m) (i : Nat) :
    box_at (2*(m:Int)+1) (ringAt m i).1 (ringAt m i).2 = BoardBox.PATH := by
  by_cases c1 : i < m
  · rw [ringAt_aev m i c1]
    exact box_path_band (m:Int) _ _ (by omega) (by omega) (by omega) (Or.inl ⟨by omega, by omega⟩)
  by_cases c2 : i ≤ 2*m - 2
  · rw [ringAt_bev m i c1 c2]
    exact box_path_band (m:Int) _ _ (by omega) (by omega) (by omega) (Or.inr ⟨by omega, by omega⟩)
  by_cases c3 : i = 2*m - 1
  · rw [ringAt_cev m i c1 c2 c3]
    exact box_path_edge (m:Int) _ _ (by omega) (by omega) (by omega) (by omega)
  by_cases c4 : i ≤ 3*m - 1
  · rw [ringAt_dev m i c1 c2 c3 c4]
    exact box_path_band (m:Int) _ _ (by omega) (by omega) (by omega) (Or.inr ⟨by omega, by omega⟩)
  by_cases c5 : i ≤ 4*m - 2
  · rw [ringAt_eev m i c1 c2 c3 c4 c5]
    exact box_path_band (m:Int) _ _ (by omega) (by omega) (by omega) (Or.inl ⟨by omega, by omega⟩)
  by_cases c6 : i = 4*m - 1
  · rw [ringAt_fev m i c1 c2 c3 c4 c5 c6]
    exact box_path_edge (m:Int) _ _ (by omega) (by omega) (by omega) (by omega)
  by_cases c7 : i ≤ 5*m - 1
  · rw [ringAt_gev m i c1 c2 c3 c4 c5 c6 c7]
    exact box_path_band (m:Int) _ _ (by omega) (by omega) (by omega) (Or.inl ⟨by omega, by omega⟩)
  by_cases c8 : i ≤ 6*m - 2
  · rw [ringAt_hev m i c1 c2 c3 c4 c5 c6 c7 c8]
    exact box_path_band (m:Int) _ _ (by omega) (by omega) (by omega) (Or.inr ⟨by omega, by omega⟩)
  by_cases c9 : i = 6*m - 1
  · rw [ringAt_iev m i c1 c2 c3 c4 c5 c6 c7 c8 c9]
    exact box_path_edge (m:Int) _ _ (by omega) (by omega) (by omega) (by omega)
  by_cases c10 : i ≤ 7*m - 1
  · rw [ringAt_jev m i c1 c2 c3 c4 c5 c6 c7 c8 c9 c10]
    exact box_path_band (m:Int) _ _ (by omega) (by omega) (by omega) (Or.inr ⟨by omega, by omega⟩)
  by_cases c11 : i ≤ 8*m - 2
  · rw [ringAt_kev m i c1 c2 c3 c4 c5 c6 c7 c8 c9 c10 c11]
    exact box_path_band (m:Int) _ _ (by omega) (by omega) (by omega) (Or.inl ⟨by omega, by omega⟩)
  by_cases c12 : i = 8*m - 1
  · rw [ringAt_lev m i c1 c2 c3 c4 c5 c6 c7 c8 c9 c10 c11 c12]
    exact box_path_edge (m:Int) _ _ (by omega) (by omega) (by omega) (by omega)
  rw [ringAt_mev m i c1 c2 c3 c4 c5 c6 c7 c8 c9 c10 c11 c12]
  exact box_path_band (m:Int) _ _ (by omega) (by omega) (by omega) (Or.inl ⟨by omega, by omega⟩)

/-- No ring position with index in `[1, 8*m-1]` is the first entry
point. -/
lemma ring_ne_start0 (m : Nat) (hm : 2 ≤ m) (i : Nat) (h1 : 1 ≤ i) (h2 : i ≤ 8*m - 1) :
    ringAt m i ≠ ((m:Int)+1, 0) := by
  by_cases c1 : i < m
  · rw [ringAt_aev m i c1]
    intro hx
    rw [Prod.mk.injEq] at hx
    omega
  by_cases c2 : i ≤ 2*m - 2
  · rw [ringAt_bev m i c1 c2]
    intro hx
    rw [Prod.mk.injEq] at hx
    omega
  by_cases c3 : i = 2*m - 1
  · rw [ringAt_cev m i c1 c2 c3]
    intro hx
    rw [Prod.mk.injEq] at hx
    omega
  by_cases c4 : i ≤ 3*m - 1
  · rw [ringAt_dev m i c1 c2 c3 c4]
    intro hx
    rw [Prod.mk.injEq] at hx
    omega
  by_cases c5 : i ≤ 4*m - 2
  · rw [ringAt_eev m i c1 c2 c3 c4 c5]
    intro hx
    rw [Prod.mk.injEq] at hx
    omega
  by_cases c6 : i = 4*m - 1
  · rw [ringAt_fev m i c1 c2 c3 c4 c5 c6]
    intro hx
    rw [Prod.mk.injEq] at hx
    omega
  by_cases c7 : i ≤ 5*m - 1
  · rw [ringAt_gev m i c1 c2 c3 c4 c5 c6 c7]
    intro hx
    rw [Prod.mk.injEq] at hx
    omega
  by_cases c8 : i ≤ 6*m - 2
  · rw [ringAt_hev m i c1 c2 c3 c4 c5 c6 c7 c8]
    intro hx
    rw [Prod.mk.injEq] at hx
    omega
  by_cases c9 : i = 6*m - 1
  · rw [ringAt_iev m i c1 c2 c3 c4 c5 c6 c7 c8 c9]
    intro hx
    rw [Prod.mk.injEq] at hx
    omega
  by_cases c10 : i ≤ 7*m - 1
  · rw [ringAt_jev m i c1 c2 c3 c4 c5 c6 c7 c8 c9 c10]
    intro hx
    rw [Prod.mk.injEq] at hx
    omega
  by_cases c11 : i ≤ 8*m - 2
  · rw [ringAt_kev m i c1 c2 c3 c4 c5 c6 c7 c8 c9 c10 c11]
    intro hx
    rw [Prod.mk.injEq] at hx
    omega
  by_cases c12 : i = 8*m - 1
  · rw [ringAt_lev m i c1 c2 c3 c4 c5 c6 c7 c8 c9 c10 c11 c12]
    intro hx
    rw [Prod.mk.injEq] at hx
    omega
  rw [ringAt_mev m i c1 c2 c3 c4 c5 c6 c7 c8 c9 c10 c11 c12]
  intro hx
  rw [Prod.mk.injEq] at hx
  omega

/-- No ring position with index in `[0, 8*m]` other than `4*m` is the
second entry point. -/
lemma ring_ne_start1 (m : Nat) (hm : 2 ≤ m) (i : Nat) (h1 : i ≤ 8*m) (h2 : i ≠ 4*m) :
    ringAt m i ≠ ((m:Int)-1, 2*(m:Int)) := by
  by_cases c1 : i < m
  · rw [ringAt_aev m i c1]
    intro hx
    rw [Prod.mk.injEq] at hx
    omega
  by_cases c2 : i ≤ 2*m - 2
  · rw [ringAt_bev m i c1 c2]
    intro hx
    rw [Prod.mk.injEq] at hx
    omega
  by_cases c3 : i = 2*m - 1
  · rw [ringAt_cev m i c1 c2 c3]
    intro hx
    rw [Prod.mk.injEq] at hx
    omega
  by_cases c4 : i ≤ 3*m - 1
  · rw [ringAt_dev m i c1 c2 c3 c4]
    intro hx
    rw [Prod.mk.injEq] at hx
    omega
  by_cases c5 : i ≤ 4*m - 2
  · rw [ringAt_eev m i c1 c2 c3 c4 c5]
    intro hx
    rw [Prod.mk.injEq] at hx
    omega
  by_cases c6 : i = 4*m - 1
  · rw [ringAt_fev m i c1 c2 c3 c4 c5 c6]
    intro hx
    rw [Prod.mk.injEq] at hx
    omega
  by_cases c7 : i ≤ 5*m - 1
  · rw [ringAt_gev m i c1 c2 c3 c4 c5 c6 c7]
    intro hx
    rw [Prod.mk.injEq] at hx
    omega
  by_cases c8 : i ≤ 6*m - 2
  · rw [ringAt_hev m i c1 c2 c3 c4 c5 c6 c7 c8]
    intro hx
    rw [Prod.mk.injEq] at hx
    omega
  by_cases c9 : i = 6*m - 1
  · rw [ringAt_iev m i c1 c2 c3 c4 c5 c6 c7 c8 c9]
    intro hx
    rw [Prod.mk.injEq] at hx
    omega
  by_cases c10 : i ≤ 7*m - 1
  · rw [ringAt_jev m i c1 c2 c3 c4 c5 c6 c7 c8 c9 c10]
    intro hx
    rw [Prod.mk.injEq] at hx
    omega
  by_cases c11 : i ≤ 8*m - 2
  · rw [ringAt_kev m i c1 c2 c3 c4 c5 c6 c7 c8 c9 c10 c11]
    intro hx
    rw [Prod.mk.injEq] at hx
    omega
  by_cases c12 : i = 8*m - 1
  · rw [ringAt_lev m i c1 c2 c3 c4 c5 c6 c7 c8 c9 c10 c11 c12]
    intro hx
    rw [Prod.mk.injEq] at hx
    omega
  rw [ringAt_mev m i c1 c2 c3 c4 c5 c6 c7 c8 c9 c10 c11 c12]
  intro hx
  rw [Prod.mk.injEq] at hx
  omega

/-- Splitting an iteration of the raw track advance. -/
lemma trackIter_add (n : Int) : ∀ (a b : Nat) (p : Int × Int),
    trackIter n (a+b) p = (trackIter n a p).bind (trackIter n b) := by
  intro a
  induction a with
  | zero =>
    intro b p
    rw [Nat.zero_add]
    rfl
  | succ a ih =>
    intro b p
    rw [show a+1+b = (a+b)+1 from by omega]
    show (match next_position n p.1 p.2 with
      | none => none
      | some q => trackIter n (a+b) q) =
      (match next_position n p.1 p.2 with
        | none => none
        | some q => trackIter n a q).bind (trackIter n b)
    cases hq : next_position n p.1 p.2 with
    | none => rfl
    | some q =>
      dsimp only
      exact ih b q

/-- Iterating the raw advance walks along the ring. -/
lemma ring_track (m : Nat) (hm : 2 ≤ m) : ∀ (j k : Nat), k + j ≤ 8*m →
    trackIter (2*(m:Int)+1) j (ringAt m k) = some (ringAt m (k+j)) := by
  intro j
  induction j with
  | zero =>
    intro k _
    rfl
  | succ j ih =>
    intro k hk
    unfold trackIter
    rw [ring_step m k hm (by omega)]
    dsimp only
    rw [ih (k+1) (by omega), show k+1+j = k+(j+1) from by omega]

/-! ### C3: the track is a closed loop of length `4*(N-1)` -/

/-- C3: starting from either entry coordinate of a board of odd size
`N = 2*m+1 ≥ 5`, applying `Board.next_position` `4*(N-1)` times returns
the same entry coordinate, and every intermediate result is a PATH
coordinate. -/
theorem track_closed_loop (m : Nat) (hm : 2 ≤ m) (s : Int × Int)
    (hs : s ∈ starts (2*(m:Int)+1)) :
    trackIter (2*(m:Int)+1) (4*(2*m+1-1)) s = some s ∧
    ∀ k : Nat, k ≤ 4*(2*m+1-1) → ∃ p, trackIter (2*(m:Int)+1) k s = some p ∧
      box_at (2*(m:Int)+1) p.1 p.2 = BoardBox.PATH := by
  have hsteps : 4*(2*m+1-1) = 8*m := by omega
  have h0 : ringAt m 0 = ((m:Int)+1, 0) :=
    (ringAt_aev m 0 (by omega)).trans (by refine Prod.ext ?_ ?_ <;> omega)
  have h4m : ringAt m (4*m) = ((m:Int)-1, 2*(m:Int)) :=
    (ringAt_gev m (4*m) (by omega) (by omega) (by omega) (by omega) (by omega) (by omega)
      (by omega)).trans (by refine Prod.ext ?_ ?_ <;> omega)
  have h8m : ringAt m (8*m) = ((m:Int)+1, 0) :=
    (ringAt_mev m (8*m) (by omega) (by omega) (by omega) (by omega) (by omega) (by omega)
      (by omega) (by omega) (by omega) (by omega) (by omega) (by omega)).trans
      (by refine Prod.ext ?_ ?_ <;> omega)
  simp only [starts, List.mem_cons, List.not_mem_nil, or_false] at hs
  rcases hs with h | h
  · have hseq : s = ((m:Int)+1, 0) := h.trans (by refine Prod.ext ?_ ?_ <;> omega)
    subst hseq
    constructor
    · rw [hsteps, ← h0, ring_track m hm (8*m) 0 (by omega), Nat.zero_add, h8m, h0]
    · intro k hk
      refine ⟨ringAt m k, ?_, ring_path m hm k⟩
      rw [← h0, ring_track m hm k 0 (by omega), Nat.zero_add]
  · have hseq : s = ((m:Int)-1, 2*(m:Int)) := h.trans (by refine Prod.ext ?_ ?_ <;> omega)
    subst hseq
    constructor
    · rw [hsteps, ← h4m, show (8*m : Nat) = 4*m + 4*m from by omega, trackIter_add,
        ring_track m hm (4*m) (4*m) (by omega), show 4*m+4*m = 8*m from by omega, h8m, ← h0]
      simp only [Option.some_bind]
      rw [ring_track m hm (4*m) 0 (by omega), Nat.zero_add, h4m]
    · intro k hk
      by_cases hsplit : k ≤ 4*m
      · refine ⟨ringAt m (4*m+k), ?_, ring_path m hm (4*m+k)⟩
        rw [← h4m, ring_track m hm k (4*m) (by omega)]
      · obtain ⟨j, rfl⟩ : ∃ j, k = 4*m + j := ⟨k - 4*m, by omega⟩
        refine ⟨ringAt m j, ?_, ring_path m hm j⟩
        rw [← h4m, trackIter_add, ring_track m hm (4*m) (4*m) (by omega),
          show 4*m+4*m = 8*m from by omega, h8m, ← h0]
        simp only [Option.some_bind]
        rw [ring_track m hm j 0 (by omega), Nat.zero_add]

theorem track_closed_loop_witness :
    ((3, 0) : Int × Int) ∈ starts (2*((2:Nat):Int)+1) ∧
    trackIter (2*((2:Nat):Int)+1) (4*(2*2+1-1)) ((3 : Int), (0 : Int)) = some (3, 0) := by
  refine ⟨by decide, ?_⟩
  exact (track_closed_loop 2 (by decide) (3, 0) (by decide)).1

/-! ### C5: lapping back to the entry point enters the home lane -/

lemma figWalk_add (n : Int) (s : Int × Int) : ∀ (a b : Nat) (p : Int × Int),
    figWalk n s (a+b) p = (figWalk n s a p).bind (figWalk n s b) := by
  intro a
  induction a with
  | zero =>
    intro b p
    rw [Nat.zero_add]
    rfl
  | succ a ih =>
    intro b p
    rw [show a+1+b = (a+b)+1 from by omega]
    show (match next_position n p.1 p.2 with
      | none => none
      | some q =>
        if q = s then
          match home_position n q.1 q.2 with
          | none => none
          | some r => figWalk n s (a+b) r
        else figWalk n s (a+b) q) =
      (match next_position n p.1 p.2 with
        | none => none
        | some q =>
          if q = s then
            match home_position n q.1 q.2 with
            | none => none
            | some r => figWalk n s a r
          else figWalk n s a q).bind (figWalk n s b)
    cases hq : next_position n p.1 p.2 with
    | none => rfl
    | some q =>
      dsimp only
      by_cases hqs : q = s
      · subst hqs
        rw [if_pos rfl, if_pos rfl]
        cases hr : home_position n q.1 q.2 with
        | none => rfl
        | some r =>
          dsimp only
          exact ih b r
      · rw [if_neg hqs, if_neg hqs]
        exact ih b q

/-- As long as the walk does not land on the figure's start position,
it follows the ring. -/
lemma figWalk_ring (m : Nat) (hm : 2 ≤ m) (s : Int × Int) : ∀ (j k : Nat), k + j ≤ 8*m →
    (∀ i : Nat, k < i → i ≤ k + j → ringAt m i ≠ s) →
    figWalk (2*(m:Int)+1) s j (ringAt m k) = some (ringAt m (k+j)) := by
  intro j
  induction j with
  | zero =>
    intro k _ _
    rfl
  | succ j ih =>
    intro k hk hne
    unfold figWalk
    rw [ring_step m k hm (by omega)]
    dsimp only
    rw [if_neg (hne (k+1) (by omega) (by omega))]
    have h := ih (k+1) (by omega) (fun i h1 h2 => hne i (by omega) (by omega))
    rw [h, show k+1+j = k+(j+1) from by omega]

lemma home_position_start0 (m : Int) (hm : 2 ≤ m) :
    home_position (2*m+1) (m+1) 0 = some (m, 1) := by
  unfold home_position
  rw [if_neg (show ¬(m+1 = 0) from by omega), if_neg (show ¬(m+1 = 2*m+1-1) from by omega),
    if_pos rfl, show (2*m+1)/2 = m from by omega]

lemma home_position_start1 (m : Int) (hm : 2 ≤ m) :
    home_position (2*m+1) (m-1) (2*m) = some (m, 2*m-1) := by
  unfold home_position
  rw [if_neg (show ¬(m-1 = 0) from by omega), if_neg (show ¬(m-1 = 2*m+1-1) from by omega),
    if_neg (show ¬((2*m : Int) = 0) from by omega), if_pos (show (2*m : Int) = 2*m+1-1 from by omega),
    show (2*m+1)/2 = m from by omega, show (2*m+1-2 : Int) = 2*m-1 from by omega]

/-- C5: for a figure whose start position is its owner's entry
coordinate, a walk step whose raw advance lands exactly on that start
position is redirected through `Board.home_position` to the first cell
of that entry's home lane; in particular a full circuit of `4*(N-1)`
steps from the entry point ends on that lane cell, which classifies as
HOME. -/
theorem lap_into_home_lane (m : Nat) (hm : 2 ≤ m) (s : Int × Int)
    (hs : s ∈ starts (2*(m:Int)+1)) (b : Board) (f : Figure)
    (hb : b.n = 2*(m:Int)+1) (hfs : f.start_position = s) (hfp : f.position = s)
    (hocc : ∀ r : Int × Int, home_position (2*(m:Int)+1) s.1 s.2 = some r →
      b.figure_at r.1 r.2 = none) :
    (∀ p : Int × Int, next_position (2*(m:Int)+1) p.1 p.2 = some s →
      figWalk (2*(m:Int)+1) s 1 p = home_position (2*(m:Int)+1) s.1 s.2) ∧
    f.next_position b (4*(2*m+1-1)) = home_position (2*(m:Int)+1) s.1 s.2 ∧
    (∀ r : Int × Int, home_position (2*(m:Int)+1) s.1 s.2 = some r →
      box_at (2*(m:Int)+1) r.1 r.2 = BoardBox.HOME) := by
  have hsteps : 4*(2*m+1-1) = 8*m := by omega
  have h0 : ringAt m 0 = ((m:Int)+1, 0) :=
    (ringAt_aev m 0 (by omega)).trans (by refine Prod.ext ?_ ?_ <;> omega)
  have h4m : ringAt m (4*m) = ((m:Int)-1, 2*(m:Int)) :=
    (ringAt_gev m (4*m) (by omega) (by omega) (by omega) (by omega) (by omega) (by omega)
      (by omega)).trans (by refine Prod.ext ?_ ?_ <;> omega)
  have h8m : ringAt m (8*m) = ((m:Int)+1, 0) :=
    (ringAt_mev m (8*m) (by omega) (by omega) (by omega) (by omega) (by omega) (by omega)
      (by omega) (by omega) (by omega) (by omega) (by omega) (by omega)).trans
      (by refine Prod.ext ?_ ?_ <;> omega)
  have hredir : ∀ p : Int × Int, next_position (2*(m:Int)+1) p.1 p.2 = some s →
      figWalk (2*(m:Int)+1) s 1 p = home_position (2*(m:Int)+1) s.1 s.2 := by
    intro p hp
    unfold figWalk
    rw [hp]
    dsimp only
    rw [if_pos rfl]
    cases home_position (2*(m:Int)+1) s.1 s.2 with
    | none => rfl
    | some r => rfl
  refine ⟨hredir, ?_⟩
  simp only [starts, List.mem_cons, List.not_mem_nil, or_false] at hs
  rcases hs with h | h
  · have hseq : s = ((m:Int)+1, 0) := h.trans (by refine Prod.ext ?_ ?_ <;> omega)
    subst hseq
    have hhp : home_position (2*(m:Int)+1) ((m:Int)+1) 0 = some ((m:Int), 1) :=
      home_position_start0 (m:Int) (by omega)
    have w1 : figWalk (2*(m:Int)+1) ((m:Int)+1, 0) (8*m-1) ((m:Int)+1, 0) =
        some (ringAt m (8*m-1)) := by
      have hw := figWalk_ring m hm ((m:Int)+1, 0) (8*m-1) 0 (by omega)
        (fun i hi1 hi2 => ring_ne_start0 m hm i (by omega) (by omega))
      rw [Nat.zero_add] at hw
      rw [h0] at hw
      exact hw
    have w2 : figWalk (2*(m:Int)+1) ((m:Int)+1, 0) 1 (ringAt m (8*m-1)) =
        some ((m:Int), 1) := by
      unfold figWalk
      rw [ring_step m (8*m-1) hm (by omega)]
      dsimp only
      rw [show (8*m-1+1 : Nat) = 8*m from by omega, h8m, if_pos rfl]
      dsimp only
      rw [hhp]
      rfl
    have hwalk : figWalk (2*(m:Int)+1) ((m:Int)+1, 0) (8*m) ((m:Int)+1, 0) =
        some ((m:Int), 1) := by
      rw [show (8*m : Nat) = (8*m-1) + 1 from by omega, figWalk_add, w1]
      simp only [Option.some_bind]
      exact w2
    have hfig : b.figure_at ((m:Int)) 1 = none := hocc ((m:Int), 1) hhp
    constructor
    · unfold Figure.next_position
      rw [hb, hfs, hfp, hsteps, hwalk]
      dsimp only
      rw [hfig]
      dsimp only
      exact hhp.symm
    · intro r hr
      rw [hhp] at hr
      injection hr with hr
      subst hr
      exact box_home_axis (m:Int) _ _ (by omega) (Or.inl ⟨rfl, by omega, by omega, by omega⟩)
  · have hseq : s = ((m:Int)-1, 2*(m:Int)) := h.trans (by refine Prod.ext ?_ ?_ <;> omega)
    subst hseq
    have hhp : home_position (2*(m:Int)+1) ((m:Int)-1) (2*(m:Int)) =
        some ((m:Int), 2*(m:Int)-1) :=
      home_position_start1 (m:Int) (by omega)
    have w1 : figWalk (2*(m:Int)+1) ((m:Int)-1, 2*(m:Int)) (4*m) ((m:Int)-1, 2*(m:Int)) =
        some (ringAt m (8*m)) := by
      have hw := figWalk_ring m hm ((m:Int)-1, 2*(m:Int)) (4*m) (4*m) (by omega)
        (fun i hi1 hi2 => ring_ne_start1 m hm i (by omega) (by omega))
      rw [show 4*m+4*m = 8*m from by omega] at hw
      rw [h4m] at hw
      exact hw
    have w2 : figWalk (2*(m:Int)+1) ((m:Int)-1, 2*(m:Int)) (4*m-1) ((m:Int)+1, 0) =
        some (ringAt m (4*m-1)) := by
      have hw := figWalk_ring m hm ((m:Int)-1, 2*(m:Int)) (4*m-1) 0 (by omega)
        (fun i hi1 hi2 => ring_ne_start1 m hm i (by omega) (by omega))
      rw [Nat.zero_add] at hw
      rw [h0] at hw
      exact hw
    have w3 : figWalk (2*(m:Int)+1) ((m:Int)-1, 2*(m:Int)) 1 (ringAt m (4*m-1)) =
        some ((m:Int), 2*(m:Int)-1) := by
      unfold figWalk
      rw [ring_step m (4*m-1) hm (by omega)]
      dsimp only
      rw [show (4*m-1+1 : Nat) = 4*m from by omega, h4m, if_pos rfl]
      dsimp only
      rw [hhp]
      rfl
    have hwalk : figWalk (2*(m:Int)+1) ((m:Int)-1, 2*(m:Int)) (8*m) ((m:Int)-1, 2*(m:Int)) =
        some ((m:Int), 2*(m:Int)-1) := by
      rw [show (8*m : Nat) = 4*m + ((4*m-1) + 1) from by omega, figWalk_add, w1, h8m]
      simp only [Option.some_bind]
      rw [figWalk_add, w2]
      simp only [Option.some_bind]
      exact w3
    have hfig : b.figure_at ((m:Int)) (2*(m:Int)-1) = none := hocc ((m:Int), 2*(m:Int)-1) hhp
    constructor
    · unfold Figure.next_position
      rw [hb, hfs, hfp, hsteps, hwalk]
      dsimp only
      rw [hfig]
      dsimp only
      exact hhp.symm
    · intro r hr
      rw [hhp] at hr
      injection hr with hr
      subst hr
      exact box_home_axis (m:Int) _ _ (by omega) (Or.inl ⟨rfl, by omega, by omega, by omega⟩)

theorem lap_into_home_lane_witness :
    Figure.next_position pathSoloFig pathSoloBoard (4*(2*2+1-1)) =
      home_position (2*((2:Nat):Int)+1) 3 0 := by
  have h := (lap_into_home_lane 2 (by decide) (3, 0) (by decide) pathSoloBoard pathSoloFig
    (by decide) (by decide) (by decide)
    (by
      intro r hr
      have : r = ((2 : Int), (1 : Int)) := by
        have he : home_position (2*((2:Nat):Int)+1) (3 : Int) (0 : Int) = some (2, 1) := by decide
        rw [he] at hr
        injection hr with hr
        exact hr.symm
      subst this
      decide)).2.1
  exact h
